import Mathlib

set_option maxRecDepth 8000

/-!
Verification development for the factif-ai directive protocol and
dual-backend action-execution engine.  Strings are embedded as `List Char`
(`Str`); the frontend regex-based parser, the backend action router, the
desktop URL cache and the browser loading monitor are translated from the
TypeScript sources into executable Lean definitions, and the spec's claims
are settled against them.
-/

namespace Factif

abbrev Str := List Char

def lit (s : String) : Str := s.data

/-- Whitespace as recognized by JS `String.prototype.trim` and the `[\s\n]`
classes of the source regexes (ASCII portion; the sources only ever emit
ASCII whitespace). -/
def isJsWs (c : Char) : Bool :=
  c == ' ' || c == '\t' || c == '\n' || c == '\r' || c == '\x0b' || c == '\x0c'

/-- JS `String.prototype.trim` on the char-list embedding. -/
def trimStr (s : Str) : Str :=
  ((s.dropWhile isJsWs).reverse.dropWhile isJsWs).reverse

/-- First index at which `pat` occurs as a contiguous substring of `s`
(JS `String.prototype.indexOf`). -/
def findSub? (pat : Str) : Str → Option Nat
  | [] => if pat.isEmpty then some 0 else none
  | c :: rest =>
    if pat.isPrefixOf (c :: rest) then some 0
    else (findSub? pat rest).map (· + 1)

/-- `pat` occurs in `s` starting at index `j`. -/
def occAt (pat s : Str) (j : Nat) : Prop := pat <+: s.drop j

instance (pat s : Str) (j : Nat) : Decidable (occAt pat s j) :=
  inferInstanceAs (Decidable (_ <+: _))

def containsSub (pat s : Str) : Bool := (findSub? pat s).isSome

theorem occAt_zero (pat s : Str) : occAt pat s 0 ↔ pat <+: s := by
  simp [occAt]

theorem occAt_cons_succ (pat : Str) (c : Char) (s : Str) (j : Nat) :
    occAt pat (c :: s) (j + 1) ↔ occAt pat s j := by
  simp [occAt, List.drop_succ_cons]

theorem findSub?_eq_some_iff (pat s : Str) (i : Nat) :
    findSub? pat s = some i ↔ occAt pat s i ∧ ∀ j < i, ¬ occAt pat s j := by
  induction s generalizing i with
  | nil =>
    by_cases hp : pat = []
    · subst hp
      constructor
      · intro h
        have hi : 0 = i := by simpa [findSub?] using h
        subst hi
        exact ⟨by simp [occAt], by omega⟩
      · rintro ⟨_, hmin⟩
        have hi : i = 0 := by
          by_contra hne
          exact hmin 0 (by omega) (by simp [occAt])
        subst hi
        simp [findSub?]
    · simp only [findSub?, List.isEmpty_iff, if_neg hp]
      constructor
      · intro h; cases h
      · rintro ⟨hocc, _⟩
        exact absurd (List.eq_nil_of_prefix_nil (by simpa [occAt] using hocc)) hp
  | cons c rest ih =>
    by_cases hpre : pat.isPrefixOf (c :: rest)
    · simp only [findSub?, if_pos hpre]
      have hocc0 : occAt pat (c :: rest) 0 := by
        simp [occAt, List.isPrefixOf_iff_prefix.mp hpre]
      constructor
      · rintro h
        cases h
        exact ⟨hocc0, by omega⟩
      · rintro ⟨_, hmin⟩
        have hi : i = 0 := by
          by_contra hne
          exact hmin 0 (by omega) hocc0
        subst hi
        trivial
    · simp only [findSub?, if_neg hpre]
      have hnot0 : ¬ occAt pat (c :: rest) 0 := by
        simp only [occAt, List.drop_zero]
        intro h
        exact hpre (List.isPrefixOf_iff_prefix.mpr h)
      constructor
      · intro h
        rcases Option.map_eq_some'.mp h with ⟨i', hi', rfl⟩
        rcases (ih i').mp hi' with ⟨hocc, hmin⟩
        refine ⟨(occAt_cons_succ _ _ _ _).mpr hocc, ?_⟩
        intro j hj
        match j with
        | 0 => exact hnot0
        | j + 1 =>
          rw [occAt_cons_succ]
          exact hmin j (by omega)
      · rintro ⟨hocc, hmin⟩
        match i with
        | 0 => exact absurd hocc hnot0
        | i + 1 =>
          have : findSub? pat rest = some i := by
            rw [ih]
            refine ⟨(occAt_cons_succ _ _ _ _).mp hocc, ?_⟩
            intro j hj
            rw [← occAt_cons_succ pat c rest j]
            exact hmin (j + 1) (by omega)
          simp [this]

theorem findSub?_eq_none_iff (pat s : Str) :
    findSub? pat s = none ↔ ∀ j, ¬ occAt pat s j := by
  induction s with
  | nil =>
    by_cases hp : pat = []
    · subst hp
      simp only [findSub?, List.isEmpty_nil, if_pos rfl]
      constructor
      · intro h; cases h
      · intro h; exact absurd (by simp [occAt]) (h 0)
    · simp only [findSub?, List.isEmpty_iff, if_neg hp]
      refine ⟨fun _ j hocc => ?_, fun _ => trivial⟩
      exact hp (List.eq_nil_of_prefix_nil (by simpa [occAt] using hocc))
  | cons c rest ih =>
    by_cases hpre : pat.isPrefixOf (c :: rest)
    · simp only [findSub?, if_pos hpre]
      constructor
      · intro h; cases h
      · intro h
        exact absurd (by simp [occAt, List.isPrefixOf_iff_prefix.mp hpre]) (h 0)
    · simp only [findSub?, if_neg hpre, Option.map_eq_none', ih]
      constructor
      · intro h j
        match j with
        | 0 =>
          simp only [occAt, List.drop_zero]
          intro hc
          exact hpre (List.isPrefixOf_iff_prefix.mpr hc)
        | j + 1 =>
          rw [occAt_cons_succ]
          exact h j
      · intro h j
        rw [← occAt_cons_succ pat c rest j]
        exact h (j + 1)

theorem containsSub_eq_false_iff (pat s : Str) :
    containsSub pat s = false ↔ ∀ j, ¬ occAt pat s j := by
  unfold containsSub
  rw [← findSub?_eq_none_iff]
  cases findSub? pat s <;> simp

theorem occAt_append_right (pat u v : Str) (j : Nat) (h : occAt pat u j) :
    occAt pat (u ++ v) j := by
  unfold occAt at h ⊢
  rcases Nat.le_total j u.length with hle | hle
  · rw [List.drop_append_eq_append_drop]
    exact h.trans (List.prefix_append _ _)
  · have : u.drop j = [] := List.drop_eq_nil_of_le hle
    rw [this] at h
    have : pat = [] := List.eq_nil_of_prefix_nil h
    simp [this]

theorem occAt_shift (pat u v : Str) (j : Nat) :
    occAt pat (u ++ v) (u.length + j) ↔ occAt pat v j := by
  unfold occAt
  rw [← List.drop_drop, List.drop_left]

/-- An occurrence inside the left part of an append (given that it fits)
is an occurrence in that part. -/
theorem occAt_left_of_le (pat u v : Str) (j : Nat)
    (h : occAt pat (u ++ v) j) (hle : j + pat.length ≤ u.length) :
    occAt pat u j := by
  unfold occAt at h ⊢
  have hj : j ≤ u.length := by omega
  rw [List.drop_append_eq_append_drop] at h
  rw [Nat.sub_eq_zero_of_le hj, List.drop_zero] at h
  have hlen : pat.length ≤ (u.drop j).length := by
    rw [List.length_drop]; omega
  have := List.prefix_iff_eq_take.mp h
  rw [List.take_append_eq_append_take] at this
  rw [Nat.sub_eq_zero_of_le hlen, List.take_zero, List.append_nil] at this
  rw [this]
  exact List.take_prefix _ _

theorem occAt_length_le (pat s : Str) (j : Nat) (h : occAt pat s j) :
    j + pat.length ≤ s.length ∨ pat = [] := by
  rcases Nat.le_total j s.length with hle | hle
  · left
    have := h.length_le
    rw [List.length_drop] at this
    omega
  · right
    have : s.drop j = [] := List.drop_eq_nil_of_le hle
    rw [occAt, this] at h
    exact List.eq_nil_of_prefix_nil h

/-- A found occurrence in `u` is still the first occurrence in `u ++ v`. -/
theorem findSub?_append_of_some (pat u v : Str) (i : Nat)
    (h : findSub? pat u = some i) : findSub? pat (u ++ v) = some i := by
  rcases (findSub?_eq_some_iff pat u i).mp h with ⟨hocc, hmin⟩
  rw [findSub?_eq_some_iff]
  refine ⟨occAt_append_right pat u v i hocc, ?_⟩
  intro j hj hoccj
  rcases occAt_length_le pat u i hocc with hfit | hnil
  · exact hmin j hj (occAt_left_of_le pat u v j hoccj (by omega))
  · exact hmin j hj (by simp [occAt, hnil])

/-- Computing the first occurrence when the string is decomposed as
`a ++ pat ++ b` and no earlier occurrence exists. -/
theorem findSub?_split (pat a b : Str)
    (ha : ∀ j < a.length, ¬ occAt pat (a ++ (pat ++ b)) j) :
    findSub? pat (a ++ (pat ++ b)) = some a.length := by
  rw [findSub?_eq_some_iff]
  refine ⟨?_, ha⟩
  unfold occAt
  rw [List.drop_left]
  exact List.prefix_append _ _

theorem drop_concat_left (a b : Str) : (a ++ b).drop a.length = b :=
  List.drop_left a b

theorem take_concat_left (a b : Str) : (a ++ b).take a.length = a :=
  List.take_left a b

theorem take_append_of_le (n : Nat) (a b : Str) (h : n ≤ a.length) :
    (a ++ b).take n = a.take n := by
  rw [List.take_append_eq_append_take, Nat.sub_eq_zero_of_le h, List.take_zero,
    List.append_nil]

theorem drop_append_of_le (n : Nat) (a b : Str) (h : n ≤ a.length) :
    (a ++ b).drop n = a.drop n ++ b := by
  rw [List.drop_append_eq_append_drop, Nat.sub_eq_zero_of_le h, List.drop_zero]

/-!
JSON values.  `Modelled from the spec:` the frontend `OmniParserResult` type
(`src/frontend/src/types/chat.types`) is not among the sources; the spec
describes the `omni_parser` payload only as JSON ("array of ID strings plus a
map from id to normalized [x, y, width, height]"), so the payload is modelled
as a generic JSON value, with numerics restricted to integers (floating-point
values are outside the model).  `jsonStringify`/`jsonParse` model the JS
builtins `JSON.stringify`/`JSON.parse` on this fragment.
-/

mutual
inductive Json where
  | null : Json
  | bool (b : Bool) : Json
  | num (n : Int) : Json
  | str (s : Str) : Json
  | arr (elems : JsonArr) : Json
  | obj (fields : JsonObj) : Json
inductive JsonArr where
  | nil : JsonArr
  | cons (hd : Json) (tl : JsonArr) : JsonArr
inductive JsonObj where
  | nil : JsonObj
  | cons (key : Str) (val : Json) (tl : JsonObj) : JsonObj
end

deriving instance DecidableEq for Json
deriving instance DecidableEq for JsonArr
deriving instance DecidableEq for JsonObj

def isDigitc (c : Char) : Bool := '0' ≤ c && c ≤ '9'

def digitChar : Nat → Char
  | 0 => '0' | 1 => '1' | 2 => '2' | 3 => '3' | 4 => '4'
  | 5 => '5' | 6 => '6' | 7 => '7' | 8 => '8' | _ => '9'

def natDigits (n : Nat) : Str :=
  if h : n < 10 then [digitChar n]
  else natDigits (n / 10) ++ [digitChar (n % 10)]
decreasing_by exact Nat.div_lt_self (by omega) (by omega)

def intToStr (i : Int) : Str :=
  if i < 0 then '-' :: natDigits i.natAbs else natDigits i.toNat

def hexDigit (n : Nat) : Char :=
  if n < 10 then digitChar n
  else if n = 10 then 'a' else if n = 11 then 'b' else if n = 12 then 'c'
  else if n = 13 then 'd' else if n = 14 then 'e' else 'f'

/-- One character of `JSON.stringify` string quoting. -/
def escChar (c : Char) : Str :=
  if c = '"' then ['\\', '"']
  else if c = '\\' then ['\\', '\\']
  else if c = '\n' then ['\\', 'n']
  else if c = '\t' then ['\\', 't']
  else if c = '\r' then ['\\', 'r']
  else if c = '\x08' then ['\\', 'b']
  else if c = '\x0c' then ['\\', 'f']
  else if c.toNat < 32 then
    ['\\', 'u', '0', '0', hexDigit (c.toNat / 16), hexDigit (c.toNat % 16)]
  else [c]

def escStr (s : Str) : Str := (s.map escChar).flatten

mutual
def jsonStringify : Json → Str
  | .null => lit "null"
  | .bool true => lit "true"
  | .bool false => lit "false"
  | .num n => intToStr n
  | .str s => '"' :: (escStr s ++ ['"'])
  | .arr es => '[' :: (jsonArrStr es ++ [']'])
  | .obj fs => '\x7b' :: (jsonObjStr fs ++ ['\x7d'])
def jsonArrStr : JsonArr → Str
  | .nil => []
  | .cons h .nil => jsonStringify h
  | .cons h (.cons h2 tl) => jsonStringify h ++ ',' :: jsonArrStr (.cons h2 tl)
def jsonObjStr : JsonObj → Str
  | .nil => []
  | .cons k v .nil => '"' :: (escStr k ++ '"' :: ':' :: jsonStringify v)
  | .cons k v (.cons k2 v2 tl) =>
    ('"' :: (escStr k ++ '"' :: ':' :: jsonStringify v)) ++
      ',' :: jsonObjStr (.cons k2 v2 tl)
end

theorem stringify_null : jsonStringify Json.null = lit "null" := rfl

theorem stringify_true : jsonStringify (Json.bool true) = lit "true" := rfl

theorem stringify_false : jsonStringify (Json.bool false) = lit "false" := rfl

theorem stringify_num (n : Int) : jsonStringify (Json.num n) = intToStr n := rfl

theorem stringify_str (s : Str) :
    jsonStringify (Json.str s) = '"' :: (escStr s ++ ['"']) := rfl

theorem stringify_arr (es : JsonArr) :
    jsonStringify (Json.arr es) = '[' :: (jsonArrStr es ++ [']']) := rfl

theorem stringify_obj (fs : JsonObj) :
    jsonStringify (Json.obj fs) = '\x7b' :: (jsonObjStr fs ++ ['\x7d']) := rfl

theorem arrStr_nil : jsonArrStr JsonArr.nil = ([] : Str) := rfl

theorem arrStr_cons_nil (h : Json) :
    jsonArrStr (JsonArr.cons h JsonArr.nil) = jsonStringify h := rfl

theorem arrStr_cons_cons (h h2 : Json) (tl : JsonArr) :
    jsonArrStr (JsonArr.cons h (JsonArr.cons h2 tl))
      = jsonStringify h ++ ',' :: jsonArrStr (JsonArr.cons h2 tl) := rfl

theorem objStr_nil : jsonObjStr JsonObj.nil = ([] : Str) := rfl

theorem objStr_cons_nil (k : Str) (v : Json) :
    jsonObjStr (JsonObj.cons k v JsonObj.nil)
      = '"' :: (escStr k ++ '"' :: ':' :: jsonStringify v) := rfl

theorem objStr_cons_cons (k : Str) (v : Json) (k2 : Str) (v2 : Json)
    (tl : JsonObj) :
    jsonObjStr (JsonObj.cons k v (JsonObj.cons k2 v2 tl))
      = ('"' :: (escStr k ++ '"' :: ':' :: jsonStringify v)) ++
          ',' :: jsonObjStr (JsonObj.cons k2 v2 tl) := rfl

def isJsonWs (c : Char) : Bool := c == ' ' || c == '\t' || c == '\n' || c == '\r'

def hexVal? (c : Char) : Option Nat :=
  if isDigitc c then some (c.toNat - 48)
  else if 'a' ≤ c && c ≤ 'f' then some (c.toNat - 87)
  else if 'A' ≤ c && c ≤ 'F' then some (c.toNat - 55)
  else none

def unescChar? (c : Char) : Option Char :=
  if c = '"' then some '"'
  else if c = '\\' then some '\\'
  else if c = '/' then some '/'
  else if c = 'n' then some '\n'
  else if c = 't' then some '\t'
  else if c = 'r' then some '\r'
  else if c = 'b' then some '\x08'
  else if c = 'f' then some '\x0c'
  else none

/-- Body of a JSON string literal, after the opening quote: returns the
decoded content and the remainder past the closing quote. -/
def parseJString : Str → Option (Str × Str)
  | [] => none
  | c :: rest =>
    if c = '"' then some ([], rest)
    else if c = '\\' then
      match rest with
      | 'u' :: a :: b :: d :: e :: rest2 =>
        (hexVal? a).bind fun na =>
        (hexVal? b).bind fun nb =>
        (hexVal? d).bind fun nd =>
        (hexVal? e).bind fun ne_ =>
        (parseJString rest2).map fun p =>
          (Char.ofNat (((na * 16 + nb) * 16 + nd) * 16 + ne_) :: p.1, p.2)
      | e :: rest2 =>
        (unescChar? e).bind fun c0 =>
        (parseJString rest2).map fun p => (c0 :: p.1, p.2)
      | [] => none
    else if c.toNat < 32 then none
    else (parseJString rest).map fun p => (c :: p.1, p.2)

def headIsDigit : Str → Bool
  | c :: _ => isDigitc c
  | [] => false

def parseDigits : Str → Nat → Nat × Str
  | c :: r, acc =>
    if isDigitc c then parseDigits r (acc * 10 + (c.toNat - 48)) else (acc, c :: r)
  | [], acc => (acc, [])

/-- A JSON integer may not be followed by a fraction or exponent marker:
such numbers are floating point and outside the model. -/
def numTermOk : Str → Bool
  | [] => true
  | c :: _ => c != '.' && c != 'e' && c != 'E'

def parseNatNum (s : Str) : Option (Nat × Str) :=
  match s with
  | c :: r =>
    if isDigitc c then
      if c = '0' && headIsDigit r then none
      else
        let p := parseDigits (c :: r) 0
        if numTermOk p.2 then some p else none
    else none
  | [] => none

def parseJNum (s : Str) : Option (Int × Str) :=
  match s with
  | c :: s1 =>
    if c = '-' then (parseNatNum s1).map fun p => (-(p.1 : Int), p.2)
    else (parseNatNum (c :: s1)).map fun p => ((p.1 : Int), p.2)
  | [] => none

def strHeadIs (c : Char) : Str → Bool
  | x :: _ => x = c
  | [] => false

mutual
def parseVal : Nat → Str → Option (Json × Str)
  | 0, _ => none
  | fuel + 1, s0 =>
    let s := s0.dropWhile isJsonWs
    if (lit "null").isPrefixOf s then some (.null, s.drop 4)
    else if (lit "true").isPrefixOf s then some (.bool true, s.drop 4)
    else if (lit "false").isPrefixOf s then some (.bool false, s.drop 5)
    else
      match s with
      | [] => none
      | c :: r =>
        if c = '"' then (parseJString r).map fun p => (Json.str p.1, p.2)
        else if c = '[' then
          if strHeadIs ']' (r.dropWhile isJsonWs) then
            some (Json.arr .nil, (r.dropWhile isJsonWs).tail)
          else (parseArrItems fuel r).map fun p => (Json.arr p.1, p.2)
        else if c = '\x7b' then
          if strHeadIs '\x7d' (r.dropWhile isJsonWs) then
            some (Json.obj .nil, (r.dropWhile isJsonWs).tail)
          else (parseObjItems fuel r).map fun p => (Json.obj p.1, p.2)
        else (parseJNum (c :: r)).map fun p => (Json.num p.1, p.2)
def parseArrItems : Nat → Str → Option (JsonArr × Str)
  | 0, _ => none
  | fuel + 1, s =>
    (parseVal fuel s).bind fun pv =>
      match pv.2.dropWhile isJsonWs with
      | [] => none
      | c :: r2 =>
        if c = ',' then
          (parseArrItems fuel r2).map fun p => (JsonArr.cons pv.1 p.1, p.2)
        else if c = ']' then some (JsonArr.cons pv.1 .nil, r2)
        else none
def parseObjItems : Nat → Str → Option (JsonObj × Str)
  | 0, _ => none
  | fuel + 1, s =>
    match s.dropWhile isJsonWs with
    | [] => none
    | c :: r =>
      if c = '"' then
        (parseJString r).bind fun pk =>
          match pk.2.dropWhile isJsonWs with
          | [] => none
          | d :: r3 =>
            if d = ':' then
              (parseVal fuel r3).bind fun pv =>
                match pv.2.dropWhile isJsonWs with
                | [] => none
                | e :: r6 =>
                  if e = ',' then
                    (parseObjItems fuel r6).map fun p =>
                      (JsonObj.cons pk.1 pv.1 p.1, p.2)
                  else if e = '\x7d' then some (JsonObj.cons pk.1 pv.1 .nil, r6)
                  else none
            else none
      else none
end

/-- `JSON.parse` on the integer-numeric JSON fragment: the whole input must
be one JSON value, up to surrounding whitespace. -/
def jsonParse (s : Str) : Option Json :=
  match parseVal (s.length + 1) s with
  | some (v, r) => if r.dropWhile isJsonWs = [] then some v else none
  | none => none

mutual
def jsonSize : Json → Nat
  | .null => 1
  | .bool _ => 1
  | .num _ => 1
  | .str _ => 1
  | .arr es => arrSize es + 1
  | .obj fs => objSize fs + 1
def arrSize : JsonArr → Nat
  | .nil => 0
  | .cons h tl => jsonSize h + arrSize tl + 1
def objSize : JsonObj → Nat
  | .nil => 0
  | .cons _ v tl => jsonSize v + objSize tl + 1
end

/-- A remainder string that cannot extend a preceding JSON integer literal. -/
def strDelim : Str → Bool
  | [] => true
  | c :: _ => !(isDigitc c) && c != '.' && c != 'e' && c != 'E'

theorem jsonSize_pos (j : Json) : 1 ≤ jsonSize j := by
  cases j <;> simp [jsonSize]

theorem strDelim_cons (c : Char) (r : Str) :
    strDelim (c :: r) = (!(isDigitc c) && c != '.' && c != 'e' && c != 'E') := rfl

theorem lit_null : lit "null" = ['n', 'u', 'l', 'l'] := rfl

theorem lit_true : lit "true" = ['t', 'r', 'u', 'e'] := rfl

theorem lit_false : lit "false" = ['f', 'a', 'l', 's', 'e'] := rfl

theorem natDigits_shape (n : Nat) :
    ∃ d t, d < 10 ∧ natDigits n = digitChar d :: t ∧ (1 ≤ n → 1 ≤ d) := by
  induction n using Nat.strong_induction_on with
  | _ n ih =>
    by_cases h : n < 10
    · refine ⟨n, [], h, ?_, fun hn => hn⟩
      rw [natDigits, dif_pos h]
    · have hlt : n / 10 < n := Nat.div_lt_self (by omega) (by omega)
      obtain ⟨d, t, hd, ht, hpos⟩ := ih (n / 10) hlt
      refine ⟨d, t ++ [digitChar (n % 10)], hd, ?_, fun _ => ?_⟩
      · rw [natDigits, dif_neg h, ht]
        simp
      · exact hpos (by omega)

theorem parseDigits_natDigits (n : Nat) : ∀ (rest : Str) (acc : Nat),
    parseDigits (natDigits n ++ rest) acc
      = parseDigits rest (acc * 10 ^ (natDigits n).length + n) := by
  induction n using Nat.strong_induction_on with
  | _ n ih =>
    intro rest acc
    by_cases h : n < 10
    · rw [natDigits, dif_pos h]
      have h1 : isDigitc (digitChar n) = true := by interval_cases n <;> decide
      have h2 : (digitChar n).toNat - 48 = n := by interval_cases n <;> decide
      simp [parseDigits, h1, h2]
    · have hlt : n / 10 < n := Nat.div_lt_self (by omega) (by omega)
      rw [natDigits, dif_neg h]
      have hm : n % 10 < 10 := Nat.mod_lt _ (by omega)
      have h1 : isDigitc (digitChar (n % 10)) = true := by
        have := hm; interval_cases hx : (n % 10) <;> decide
      have h2 : (digitChar (n % 10)).toNat - 48 = n % 10 := by
        have := hm; interval_cases hx : (n % 10) <;> decide
      rw [List.append_assoc, ih (n / 10) hlt, List.singleton_append]
      simp only [parseDigits, h1, if_pos, h2, List.length_append,
        List.length_singleton]
      have : (acc * 10 ^ (natDigits (n / 10)).length + n / 10) * 10 + n % 10
          = acc * 10 ^ ((natDigits (n / 10)).length + 1) + n := by
        rw [pow_succ]
        have := Nat.div_add_mod n 10
        ring_nf
        omega
      rw [this]

theorem parseDigits_stop (rest : Str) (acc : Nat) (h : headIsDigit rest = false) :
    parseDigits rest acc = (acc, rest) := by
  cases rest with
  | nil => rfl
  | cons c r =>
    simp only [headIsDigit] at h
    simp [parseDigits, h]

theorem natDigits_head_ne_zero (n : Nat) (hn : 1 ≤ n) :
    ∃ d t, d < 10 ∧ 1 ≤ d ∧ natDigits n = digitChar d :: t := by
  obtain ⟨d, t, hd, ht, hpos⟩ := natDigits_shape n
  exact ⟨d, t, hd, hpos hn, ht⟩

theorem parseNatNum_natDigits (n : Nat) (rest : Str)
    (h1 : headIsDigit rest = false) (h2 : numTermOk rest = true) :
    parseNatNum (natDigits n ++ rest) = some (n, rest) := by
  have key : parseDigits (natDigits n ++ rest) 0 = (n, rest) := by
    rw [parseDigits_natDigits, parseDigits_stop rest _ h1]
    simp
  rcases Nat.eq_zero_or_pos n with h0 | h0
  · subst h0
    have hz : natDigits 0 = ['0'] := by rw [natDigits, dif_pos (by omega)]; rfl
    rw [hz] at key ⊢
    simp only [List.singleton_append] at key ⊢
    simp [parseNatNum, h1, key, h2]
    decide
  · obtain ⟨d, t, hd, hdpos, ht⟩ := natDigits_head_ne_zero n h0
    rw [ht] at key ⊢
    have hdig : isDigitc (digitChar d) = true := by interval_cases d <;> decide
    have hne0 : (digitChar d = '0') = False := by
      interval_cases d <;> simp_all <;> decide
    simp only [List.cons_append] at key ⊢
    simp [parseNatNum, hdig, hne0, key, h2]

theorem parseJNum_intToStr (i : Int) (rest : Str)
    (h1 : headIsDigit rest = false) (h2 : numTermOk rest = true) :
    parseJNum (intToStr i ++ rest) = some (i, rest) := by
  by_cases hneg : i < 0
  · rw [intToStr, if_pos hneg]
    simp only [List.cons_append, parseJNum, if_pos rfl]
    rw [parseNatNum_natDigits _ _ h1 h2]
    simp only [Option.map_some']
    have habs : ((i.natAbs : Int)) = -i := by omega
    rw [habs]
    simp
  · rw [intToStr, if_neg hneg]
    obtain ⟨d, t, hd, ht, _⟩ := natDigits_shape i.toNat
    rw [ht]
    have hnd : (digitChar d = '-') = False := by
      interval_cases d <;> simp_all <;> decide
    simp only [List.cons_append, parseJNum, hnd, if_false]
    rw [← List.cons_append, ← ht, parseNatNum_natDigits _ _ h1 h2]
    simp only [Option.map_some']
    have htn : ((i.toNat : Int)) = i := by omega
    rw [htn]

theorem hexVal?_hexDigit (k : Nat) (hk : k < 16) : hexVal? (hexDigit k) = some k := by
  interval_cases k <;> decide

theorem char_hex_roundtrip (c : Char) (h : c.toNat < 32) :
    Char.ofNat (c.toNat / 16 * 16 + c.toNat % 16) = c := by
  have hv : c.toNat / 16 * 16 + c.toNat % 16 = c.toNat := by omega
  rw [hv, Char.ofNat_toNat]

theorem parseJString_escStr (s : Str) : ∀ rest : Str,
    parseJString (escStr s ++ ('"' :: rest)) = some (s, rest) := by
  induction s with
  | nil =>
    intro rest
    rw [(by simp [escStr] : escStr [] ++ ('"' :: rest) = '"' :: rest),
      parseJString.eq_def]
    simp
  | cons c s ih =>
    intro rest
    have hesc : escStr (c :: s) ++ ('"' :: rest)
        = escChar c ++ (escStr s ++ ('"' :: rest)) := by
      simp [escStr]
    rw [hesc]
    by_cases h1 : c = '"'
    · subst h1
      simp only [escChar, if_pos rfl, List.cons_append, List.nil_append]
      rw [parseJString.eq_def]
      simp [unescChar?, ih]
    by_cases h2 : c = '\\'
    · subst h2
      simp only [escChar, if_neg h1, if_pos rfl, List.cons_append, List.nil_append]
      rw [parseJString.eq_def]
      simp [unescChar?, ih]
    by_cases h3 : c = '\n'
    · subst h3
      simp only [escChar, if_neg h1, if_neg h2, if_pos rfl, List.cons_append,
        List.nil_append]
      rw [parseJString.eq_def]
      simp [unescChar?, ih]
    by_cases h4 : c = '\t'
    · subst h4
      simp only [escChar, if_neg h1, if_neg h2, if_neg h3, if_pos rfl,
        List.cons_append, List.nil_append]
      rw [parseJString.eq_def]
      simp [unescChar?, ih]
    by_cases h5 : c = '\r'
    · subst h5
      simp only [escChar, if_neg h1, if_neg h2, if_neg h3, if_neg h4, if_pos rfl,
        List.cons_append, List.nil_append]
      rw [parseJString.eq_def]
      simp [unescChar?, ih]
    by_cases h6 : c = '\x08'
    · subst h6
      simp only [escChar, if_neg h1, if_neg h2, if_neg h3, if_neg h4, if_neg h5,
        if_pos rfl, List.cons_append, List.nil_append]
      rw [parseJString.eq_def]
      simp [unescChar?, ih]
    by_cases h7 : c = '\x0c'
    · subst h7
      simp only [escChar, if_neg h1, if_neg h2, if_neg h3, if_neg h4, if_neg h5,
        if_neg h6, if_pos rfl, List.cons_append, List.nil_append]
      rw [parseJString.eq_def]
      simp [unescChar?, ih]
    by_cases h8 : c.toNat < 32
    · have hdiv : c.toNat / 16 < 16 := by omega
      have hmod : c.toNat % 16 < 16 := by omega
      simp only [escChar, if_neg h1, if_neg h2, if_neg h3, if_neg h4, if_neg h5,
        if_neg h6, if_neg h7, if_pos h8, List.cons_append, List.nil_append]
      rw [parseJString.eq_def]
      simp [(by decide : hexVal? '0' = some 0),
        hexVal?_hexDigit _ hdiv, hexVal?_hexDigit _ hmod, ih,
        char_hex_roundtrip c h8]
    · simp only [escChar, if_neg h1, if_neg h2, if_neg h3, if_neg h4, if_neg h5,
        if_neg h6, if_neg h7, if_neg h8, List.cons_append, List.nil_append]
      rw [parseJString.eq_def]
      simp [h1, h2, h8, ih]

theorem dropWhile_cons_neg (p : Char → Bool) (c : Char) (l : Str)
    (h : p c = false) : List.dropWhile p (c :: l) = c :: l := by
  rw [List.dropWhile_cons, h]
  simp

theorem digitChar_facts (d : Nat) (hd : d < 10) :
    isJsonWs (digitChar d) = false ∧ digitChar d ≠ 'n' ∧ digitChar d ≠ 't' ∧
    digitChar d ≠ 'f' ∧ digitChar d ≠ '"' ∧ digitChar d ≠ '[' ∧
    digitChar d ≠ '\x7b' ∧ digitChar d ≠ ']' ∧ digitChar d ≠ ',' ∧
    digitChar d ≠ '\x7d' ∧ digitChar d ≠ '-' := by
  interval_cases d <;> decide

theorem intToStr_head (i : Int) :
    ∃ c t, intToStr i = c :: t ∧ isJsonWs c = false ∧ c ≠ 'n' ∧ c ≠ 't' ∧
      c ≠ 'f' ∧ c ≠ '"' ∧ c ≠ '[' ∧ c ≠ '\x7b' ∧ c ≠ ']' ∧ c ≠ ',' ∧
      c ≠ '\x7d' := by
  by_cases hneg : i < 0
  · refine ⟨'-', natDigits i.natAbs, by rw [intToStr, if_pos hneg], ?_⟩
    refine ⟨by decide, by decide, by decide, by decide, by decide, by decide,
      by decide, by decide, by decide, by decide⟩
  · obtain ⟨d, t, hd, hds, _⟩ := natDigits_shape i.toNat
    obtain ⟨f1, f2, f3, f4, f5, f6, f7, f8, f9, f10, _⟩ := digitChar_facts d hd
    exact ⟨digitChar d, t, by rw [intToStr, if_neg hneg, hds], f1, f2, f3, f4,
      f5, f6, f7, f8, f9, f10⟩

theorem strDelim_facts (rest : Str) (h : strDelim rest = true) :
    headIsDigit rest = false ∧ numTermOk rest = true := by
  cases rest with
  | nil => exact ⟨rfl, rfl⟩
  | cons c r =>
    simp only [strDelim, Bool.and_eq_true, Bool.not_eq_true'] at h
    exact ⟨h.1.1.1, by simp [numTermOk, h.1.1.2, h.1.2, h.2]⟩

theorem parseVal_num_dispatch (fuel : Nat) (c : Char) (r : Str)
    (hws : isJsonWs c = false)
    (hn : c ≠ 'n') (ht : c ≠ 't') (hf : c ≠ 'f')
    (hq : c ≠ '"') (hb : c ≠ '[') (ho : c ≠ '\x7b') :
    parseVal (fuel + 1) (c :: r)
      = (parseJNum (c :: r)).map fun p => (Json.num p.1, p.2) := by
  rw [parseVal.eq_def]
  simp [List.dropWhile_cons, hws, lit_null, lit_true, lit_false,
    List.isPrefixOf, hn, ht, hf, hq, hb, ho, Ne.symm hn, Ne.symm ht,
    Ne.symm hf, Ne.symm hq, Ne.symm hb, Ne.symm ho]

theorem parseVal_intToStr (f : Nat) (i : Int) (rest : Str)
    (h1 : headIsDigit rest = false) (h2 : numTermOk rest = true) :
    parseVal (f + 1) (intToStr i ++ rest) = some (Json.num i, rest) := by
  obtain ⟨c, t, hct, hws, hn, ht', hf, hq, hb, ho, _, _, _⟩ := intToStr_head i
  rw [hct, List.cons_append,
    parseVal_num_dispatch f c _ hws hn ht' hf hq hb ho,
    ← List.cons_append, ← hct, parseJNum_intToStr i rest h1 h2]
  rfl

theorem jsonStringify_head (j : Json) :
    ∃ c t, jsonStringify j = c :: t ∧ isJsonWs c = false ∧ c ≠ ']' ∧
      c ≠ '\x7d' := by
  cases j with
  | num n =>
    obtain ⟨c, t, hct, hws, _, _, _, _, _, _, h9, _, h11⟩ := intToStr_head n
    exact ⟨c, t, hct, hws, h9, h11⟩
  | null => refine ⟨'n', _, rfl, ?_, ?_, ?_⟩ <;> decide
  | bool b =>
    cases b with
    | true => refine ⟨'t', _, rfl, ?_, ?_, ?_⟩ <;> decide
    | false => refine ⟨'f', _, rfl, ?_, ?_, ?_⟩ <;> decide
  | str s => refine ⟨'"', _, rfl, ?_, ?_, ?_⟩ <;> decide
  | arr es => refine ⟨'[', _, rfl, ?_, ?_, ?_⟩ <;> decide
  | obj fs => refine ⟨'\x7b', _, rfl, ?_, ?_, ?_⟩ <;> decide

theorem jsonArrStr_head (h : Json) (tl : JsonArr) :
    ∃ c t, jsonArrStr (JsonArr.cons h tl) = c :: t ∧ isJsonWs c = false ∧
      c ≠ ']' := by
  obtain ⟨c, t, hct, hws, hne, _⟩ := jsonStringify_head h
  cases tl with
  | nil => exact ⟨c, t, hct, hws, hne⟩
  | cons h2 tl2 =>
    refine ⟨c, t ++ ',' :: jsonArrStr (JsonArr.cons h2 tl2), ?_, hws, hne⟩
    rw [arrStr_cons_cons, hct]
    rfl

mutual

theorem parseVal_stringify (j : Json) (fuel : Nat) (rest : Str)
    (hf : jsonSize j ≤ fuel) (hr : strDelim rest = true) :
    parseVal fuel (jsonStringify j ++ rest) = some (j, rest) := by
  obtain ⟨hd1, hd2⟩ := strDelim_facts rest hr
  cases fuel with
  | zero => exact absurd hf (by have := jsonSize_pos j; omega)
  | succ f =>
    cases j with
    | null =>
      rw [stringify_null, lit_null, parseVal.eq_def]
      simp [List.isPrefixOf, List.dropWhile_cons, isJsonWs]
    | bool b =>
      cases b with
      | true =>
        rw [stringify_true, lit_true, parseVal.eq_def]
        simp [List.isPrefixOf, List.dropWhile_cons, isJsonWs]
      | false =>
        rw [stringify_false, lit_false, parseVal.eq_def]
        simp [List.isPrefixOf, List.dropWhile_cons, isJsonWs]
    | num n =>
      rw [stringify_num]
      exact parseVal_intToStr f n rest hd1 hd2
    | str s =>
      rw [stringify_str,
        List.cons_append, List.append_assoc, List.singleton_append,
        parseVal.eq_def]
      simp [List.isPrefixOf, List.dropWhile_cons, isJsonWs, parseJString_escStr]
    | arr es =>
      cases es with
      | nil =>
        rw [stringify_arr, arrStr_nil]
        simp only [List.nil_append, List.cons_append, List.singleton_append]
        rw [parseVal.eq_def]
        simp [List.isPrefixOf, List.dropWhile_cons, isJsonWs, strHeadIs]
      | cons h tl =>
        have hsz : arrSize (JsonArr.cons h tl) ≤ f := by
          simp only [jsonSize] at hf; omega
        obtain ⟨c, t, hct, hws, hnrb⟩ := jsonArrStr_head h tl
        have e1 := parseArrItems_stringify (JsonArr.cons h tl) f rest
          (by simp) hsz
        have hhead : strHeadIs ']'
            ((jsonArrStr (JsonArr.cons h tl) ++ (']' :: rest)).dropWhile
              isJsonWs) = false := by
          rw [hct, List.cons_append, List.dropWhile_cons]
          simp [hws, strHeadIs, hnrb]
        rw [stringify_arr,
          List.cons_append, List.append_assoc, List.singleton_append,
          parseVal.eq_def]
        simp [List.isPrefixOf, List.dropWhile_cons, isJsonWs, hhead, e1]
    | obj fs =>
      cases fs with
      | nil =>
        rw [stringify_obj, objStr_nil]
        simp only [List.nil_append, List.cons_append, List.singleton_append]
        rw [parseVal.eq_def]
        simp [List.isPrefixOf, List.dropWhile_cons, isJsonWs, strHeadIs]
      | cons k v tl =>
        have hsz : objSize (JsonObj.cons k v tl) ≤ f := by
          simp only [jsonSize] at hf; omega
        have e1 := parseObjItems_stringify (JsonObj.cons k v tl) f rest
          (by simp) hsz
        have hobjhead : ∃ t2, jsonObjStr (JsonObj.cons k v tl) = '"' :: t2 := by
          cases tl <;> exact ⟨_, rfl⟩
        obtain ⟨t2, ht2⟩ := hobjhead
        have hhead : strHeadIs '\x7d'
            ((jsonObjStr (JsonObj.cons k v tl) ++ ('\x7d' :: rest)).dropWhile
              isJsonWs) = false := by
          rw [ht2, List.cons_append, List.dropWhile_cons]
          simp [strHeadIs, isJsonWs]
        rw [stringify_obj,
          List.cons_append, List.append_assoc, List.singleton_append,
          parseVal.eq_def]
        simp [List.isPrefixOf, List.dropWhile_cons, isJsonWs, hhead, e1]

theorem parseArrItems_stringify (es : JsonArr) (fuel : Nat) (rest : Str)
    (hne : es ≠ JsonArr.nil) (hf : arrSize es ≤ fuel) :
    parseArrItems fuel (jsonArrStr es ++ (']' :: rest)) = some (es, rest) := by
  cases es with
  | nil => exact absurd rfl hne
  | cons h tl =>
    cases fuel with
    | zero =>
      simp only [arrSize] at hf
      exact absurd hf (by have := jsonSize_pos h; omega)
    | succ g =>
      have hg : jsonSize h ≤ g := by simp only [arrSize] at hf; omega
      cases tl with
      | nil =>
        have e1 := parseVal_stringify h g (']' :: rest) hg
          (by rw [strDelim_cons]; decide)
        rw [arrStr_cons_nil, parseArrItems.eq_def]
        simp [List.dropWhile_cons, isJsonWs, e1]
      | cons h2 tl2 =>
        have htl : arrSize (JsonArr.cons h2 tl2) ≤ g := by
          simp only [arrSize] at hf ⊢; omega
        have e1 := parseVal_stringify h g
          (',' :: (jsonArrStr (JsonArr.cons h2 tl2) ++ (']' :: rest)))
          hg (by rw [strDelim_cons]; decide)
        have e2 := parseArrItems_stringify (JsonArr.cons h2 tl2) g rest
          (by simp) htl
        rw [arrStr_cons_cons,
          List.append_assoc, List.cons_append, parseArrItems.eq_def]
        simp [List.dropWhile_cons, isJsonWs, e1, e2]

theorem parseObjItems_stringify (fs : JsonObj) (fuel : Nat) (rest : Str)
    (hne : fs ≠ JsonObj.nil) (hf : objSize fs ≤ fuel) :
    parseObjItems fuel (jsonObjStr fs ++ ('\x7d' :: rest)) = some (fs, rest) := by
  cases fs with
  | nil => exact absurd rfl hne
  | cons k v tl =>
    cases fuel with
    | zero =>
      simp only [objSize] at hf
      exact absurd hf (by have := jsonSize_pos v; omega)
    | succ g =>
      have hg : jsonSize v ≤ g := by simp only [objSize] at hf; omega
      cases tl with
      | nil =>
        have e1 := parseJString_escStr k
          (':' :: (jsonStringify v ++ ('\x7d' :: rest)))
        have e2 := parseVal_stringify v g ('\x7d' :: rest) hg
          (by rw [strDelim_cons]; decide)
        rw [objStr_cons_nil,
          List.cons_append, List.append_assoc]
        simp only [List.cons_append]
        rw [parseObjItems.eq_def]
        simp [List.dropWhile_cons, isJsonWs, e1, e2]
      | cons k2 v2 tl2 =>
        have htl : objSize (JsonObj.cons k2 v2 tl2) ≤ g := by
          simp only [objSize] at hf ⊢; omega
        have e1 := parseJString_escStr k
          (':' :: (jsonStringify v ++
            (',' :: (jsonObjStr (JsonObj.cons k2 v2 tl2) ++ ('\x7d' :: rest)))))
        have e2 := parseVal_stringify v g
          (',' :: (jsonObjStr (JsonObj.cons k2 v2 tl2) ++ ('\x7d' :: rest)))
          hg (by rw [strDelim_cons]; decide)
        have e3 := parseObjItems_stringify (JsonObj.cons k2 v2 tl2) g rest
          (by simp) htl
        rw [objStr_cons_cons]
        simp only [List.cons_append, List.append_assoc] at e1 e2 e3 ⊢
        rw [parseObjItems.eq_def]
        simp [List.dropWhile_cons, isJsonWs, e1, e2, e3]

end

mutual

theorem jsonSize_le_len (j : Json) : jsonSize j ≤ (jsonStringify j).length := by
  cases j with
  | null => simp [jsonSize, stringify_null, lit_null]
  | bool b =>
    cases b with
    | true => simp [jsonSize, stringify_true, lit_true]
    | false => simp [jsonSize, stringify_false, lit_false]
  | num n =>
    obtain ⟨c, t, hct, _⟩ := intToStr_head n
    simp [jsonSize, stringify_num, hct]
  | str s => simp [jsonSize, stringify_str]
  | arr es =>
    have h := arrSize_le_len es
    simp only [jsonSize, stringify_arr, List.length_cons, List.length_append,
      List.length_singleton]
    omega
  | obj fs =>
    have h := objSize_le_len fs
    simp only [jsonSize, stringify_obj, List.length_cons, List.length_append,
      List.length_singleton]
    omega

theorem arrSize_le_len (es : JsonArr) :
    arrSize es ≤ (jsonArrStr es).length + 1 := by
  cases es with
  | nil => simp [arrSize, arrStr_nil]
  | cons h tl =>
    have h1 := jsonSize_le_len h
    cases tl with
    | nil =>
      simp only [arrSize, arrStr_cons_nil]
      omega
    | cons h2 tl2 =>
      have h2' := arrSize_le_len (JsonArr.cons h2 tl2)
      simp only [arrSize, arrStr_cons_cons, List.length_append,
        List.length_cons] at h2' ⊢
      omega

theorem objSize_le_len (fs : JsonObj) :
    objSize fs ≤ (jsonObjStr fs).length + 1 := by
  cases fs with
  | nil => simp [objSize, objStr_nil]
  | cons k v tl =>
    have h1 := jsonSize_le_len v
    cases tl with
    | nil =>
      simp only [objSize, objStr_cons_nil, List.length_cons, List.length_append]
      omega
    | cons k2 v2 tl2 =>
      have h2' := objSize_le_len (JsonObj.cons k2 v2 tl2)
      simp only [objSize, objStr_cons_cons, List.length_append,
        List.length_cons] at h2' ⊢
      omega

end

/-- `JSON.parse ∘ JSON.stringify` is the identity on the modelled JSON
fragment. -/
theorem jsonParse_stringify (j : Json) : jsonParse (jsonStringify j) = some j := by
  unfold jsonParse
  have h := parseVal_stringify j ((jsonStringify j).length + 1) []
    (le_trans (jsonSize_le_len j) (by omega)) rfl
  rw [List.append_nil] at h
  rw [h]
  simp

/-!
Embedding of `src/frontend/src/utils/messagePatterns.ts`.  Each JS regex of
the source is translated into a deterministic matcher.  The translations
rely on the following facts about the source patterns: in a chain of literal
tags separated by lazy `[\s\S]*?` gaps, continued-match success is monotone
in the remaining suffix, so the leftmost match commits to the first
occurrence of each literal in order; a greedy `[\s\n]*` run followed by a
literal starting with `<` never needs to backtrack (no whitespace char can
begin the literal); optional groups commit exactly when their body matches
and the mandatory remainder can still be found afterwards.
-/

def skipWs (s : Str) : Str := s.dropWhile isJsWs

def paOpen : Str := lit "<perform_action>"
def paClose : Str := lit "</perform_action>"
def parOpen : Str := lit "<perform_action_result>"
def parClose : Str := lit "</perform_action_result>"
def afqOpen : Str := lit "<ask_followup_question>"
def afqClose : Str := lit "</ask_followup_question>"
def ctOpen : Str := lit "<complete_task>"
def ctClose : Str := lit "</complete_task>"
def eoOpen : Str := lit "<explore_output>"
def eoClose : Str := lit "</explore_output>"
def actOpen : Str := lit "<action>"
def actClose : Str := lit "</action>"
def urlOpen : Str := lit "<url>"
def urlClose : Str := lit "</url>"
def coordOpen : Str := lit "<coordinate>"
def coordClose : Str := lit "</coordinate>"
def textOpen : Str := lit "<text>"
def textClose : Str := lit "</text>"
def keyOpen : Str := lit "<key>"
def keyClose : Str := lit "</key>"
def ataOpen : Str := lit "<about_this_action>"
def ataClose : Str := lit "</about_this_action>"
def mnOpen : Str := lit "<marker_number>"
def mnClose : Str := lit "</marker_number>"
def questionOpen : Str := lit "<question>"
def questionClose : Str := lit "</question>"
def resultOpen : Str := lit "<result>"
def resultClose : Str := lit "</result>"
def commandOpen : Str := lit "<command>"
def commandClose : Str := lit "</command>"
def statusSucc : Str := lit "<action_status>success</action_status>"
def statusErr : Str := lit "<action_status>error</action_status>"
def amOpen : Str := lit "<action_message>"
def amClose : Str := lit "</action_message>"
def scrOpen : Str := lit "<screenshot>"
def scrClose : Str := lit "</screenshot>"
def omniOpen : Str := lit "<omni_parser>"
def omniClose : Str := lit "</omni_parser>"
def ceOpen : Str := lit "<clickable_element>"
def ceClose : Str := lit "</clickable_element>"
def coordsOpen : Str := lit "<coordinates>"
def coordsClose : Str := lit "</coordinates>"
def ateOpen : Str := lit "<about_this_element>"
def ateClose : Str := lit "</about_this_element>"

/-- Group 1 of the JS regex `/openT([\s\S]*?)closeT/s` applied to `s`: the
match starts at the first occurrence of the opening tag and the lazy group
runs to the first occurrence of the closing tag after it. -/
def tagGroup (openT closeT s : Str) : Option Str :=
  match findSub? openT s with
  | none => none
  | some i =>
    let rest := s.drop (i + openT.length)
    match findSub? closeT rest with
    | none => none
    | some j => some (rest.take j)

/-- The full text matched by `/openT[\s\S]*?closeT/s` (`match[0]`). -/
def tagSpan (openT closeT s : Str) : Option Str :=
  match findSub? openT s with
  | none => none
  | some i =>
    match findSub? closeT (s.drop (i + openT.length)) with
    | none => none
    | some j => some ((s.drop i).take (openT.length + j + closeT.length))

structure PerformAction where
  action : Str
  url : Option Str
  coordinate : Option Str
  text : Option Str
  key : Option Str
  aboutThisAction : Option Str
  markerNumber : Option Str
deriving DecidableEq

/-- `fullText.match(tag)?.[1]?.trim()` followed by the `...(x && { x })`
spread guard of the source: a missing tag, or a body whose trim is the
empty string, contributes no field. -/
def optField (openT closeT span : Str) : Option Str :=
  match (tagGroup openT closeT span).map trimStr with
  | some v => if v = [] then none else some v
  | none => none

/-- The shared per-field extraction of `extractAction` and
`performActionMatch` (messagePatterns.ts:154-188 and 254-283): every tag is
matched independently against the given text, values are trimmed, and the
required `action` must be truthy. -/
def buildPerformAction (s : Str) : Option PerformAction :=
  match (tagGroup actOpen actClose s).map trimStr with
  | none => none
  | some a =>
    if a = [] then none
    else some {
      action := a
      url := optField urlOpen urlClose s
      coordinate := optField coordOpen coordClose s
      text := optField textOpen textClose s
      key := optField keyOpen keyClose s
      aboutThisAction := optField ataOpen ataClose s
      markerNumber := optField mnOpen mnClose s }

/-- `MessagePatterns.extractAction` (messagePatterns.ts:246-284): match the
first `perform_action` span, then extract the fields from that span. -/
def extractAction (s : Str) : Option PerformAction :=
  match tagSpan paOpen paClose s with
  | none => none
  | some span => buildPerformAction span

structure ClickableElement where
  text : Str
  coordinates : Str
  aboutThisElement : Str
deriving DecidableEq

inductive RStatus where
  | success : RStatus
  | error : RStatus
deriving DecidableEq

inductive MessagePart where
  | text (content : Str) : MessagePart
  | performAction (p : PerformAction) : MessagePart
  | actionResult (status : RStatus) (message : Str) (screenshot : Option Str)
      (omniParserResult : Option Json) : MessagePart
  | completeTask (result : Str) (command : Option Str) : MessagePart
  | followupQuestion (question : Str) : MessagePart
  | exploreOutput (clickableElements : List ClickableElement) : MessagePart
deriving DecidableEq

structure ProcessedPart where
  length : Nat
  part : MessagePart
deriving DecidableEq

/-- `MessagePatterns.performActionMatch` (messagePatterns.ts:144-189): guard
on a `perform_action` span being present, then extract the fields from the
whole given text. -/
def performActionMatch (fullMatch : Str) : Option ProcessedPart :=
  if (tagSpan paOpen paClose fullMatch).isSome then
    (buildPerformAction fullMatch).map fun p =>
      { length := fullMatch.length, part := MessagePart.performAction p }
  else none

def firstHit {α : Type} (f : Nat → Option α) : List Nat → Option α
  | [] => none
  | j :: rest =>
    match f j with
    | some a => some a
    | none => firstHit f rest

/-- All positions at which `pat` occurs in `s`, ascending. -/
def occList (pat s : Str) : List Nat :=
  (List.range (s.length + 1)).filter (fun j => pat.isPrefixOf (s.drop j))

/-- Matcher for `patterns.followupQuestion`
(`/<ask_followup_question>[\s\n]*<question>[\s\n]*(.*?)[\s\n]*<\/question>[\s\n]*<\/ask_followup_question>/s`):
candidate starts are the occurrences of the opening tag in order, and the
lazy group is searched by increasing length. -/
def fqMatch (s : Str) : Option Str :=
  firstHit (fun o =>
    let r1 := skipWs (s.drop (o + afqOpen.length))
    if questionOpen.isPrefixOf r1 then
      let r2 := skipWs (r1.drop questionOpen.length)
      firstHit (fun l =>
        let r3 := skipWs (r2.drop l)
        if questionClose.isPrefixOf r3 then
          let r4 := skipWs (r3.drop questionClose.length)
          if afqClose.isPrefixOf r4 then some (r2.take l) else none
        else none) (List.range (r2.length + 1))
    else none) (occList afqOpen s)

/-- `MessagePatterns.processFollowupQuestion` (messagePatterns.ts:232-244). -/
def processFollowupQuestion (fullMatch : Str) : Option ProcessedPart :=
  match fqMatch fullMatch with
  | some q =>
    if q = [] then none
    else some { length := fullMatch.length, part := .followupQuestion q }
  | none => none

/-- Matcher for `patterns.completeTask`
(`/<complete_task>[\s\n]*<result>([\s\S]*?)<\/result>(?:[\s\n]*<command>(.*?)<\/command>)?[\s\n]*<\/complete_task>/s`):
the optional command group is greedy, so it is attempted (over all lazy
extents of its capture) before being skipped. -/
def ctMatch (s : Str) : Option (Str × Option Str) :=
  firstHit (fun o =>
    let r1 := skipWs (s.drop (o + ctOpen.length))
    if resultOpen.isPrefixOf r1 then
      let r2 := r1.drop resultOpen.length
      firstHit (fun j =>
        if resultClose.isPrefixOf (r2.drop j) then
          let cap1 := r2.take j
          let r3 := r2.drop (j + resultClose.length)
          let withCmd : Option (Str × Option Str) :=
            (let r4 := skipWs r3
             if commandOpen.isPrefixOf r4 then
               let r5 := r4.drop commandOpen.length
               firstHit (fun l =>
                 if commandClose.isPrefixOf (r5.drop l) then
                   let r6 := skipWs (r5.drop (l + commandClose.length))
                   if ctClose.isPrefixOf r6 then some (cap1, some (r5.take l))
                   else none
                 else none) (List.range (r5.length + 1))
             else none)
          match withCmd with
          | some res => some res
          | none =>
            if ctClose.isPrefixOf (skipWs r3) then some (cap1, none) else none
        else none) (List.range (r2.length + 1))
    else none) (occList ctOpen s)

/-- `MessagePatterns.processCompleteTaskMatch` (messagePatterns.ts:213-230). -/
def processCompleteTaskMatch (fullMatch : Str) : Option ProcessedPart :=
  match ctMatch fullMatch with
  | some (result, command) =>
    if result = [] then none
    else
      some { length := fullMatch.length
             part := .completeTask result
               (match command with
                | some c => if c = [] then none else some c
                | none => none) }
  | none => none

def findSub2? (p1 p2 : Str) : Str → Option (Nat × Bool)
  | [] =>
    if p1.isEmpty then some (0, true)
    else if p2.isEmpty then some (0, false) else none
  | c :: rest =>
    if p1.isPrefixOf (c :: rest) then some (0, true)
    else if p2.isPrefixOf (c :: rest) then some (0, false)
    else (findSub2? p1 p2 rest).map (fun p => (p.1 + 1, p.2))

structure ARMatch where
  isSuccess : Bool
  message : Str
  screenshotCap : Option Str
  omniCap : Option Str
deriving DecidableEq

/-- Matcher for `patterns.actionResult` (messagePatterns.ts:28-29).  The
pattern is a chain of literals with lazy gaps, with the `success|error`
alternation tried in order at each gap extent, and two greedy optional
groups (screenshot, omni_parser); an optional group commits when its body
matches and the final closing literal can still be found afterwards,
otherwise it is skipped. -/
def arMatch (s : Str) : Option ARMatch :=
  match findSub? parOpen s with
  | none => none
  | some i =>
    let r1 := s.drop (i + parOpen.length)
    match findSub2? statusSucc statusErr r1 with
    | none => none
    | some (j, isSucc) =>
      let r2 := r1.drop
        (j + (if isSucc then statusSucc.length else statusErr.length))
      match findSub? amOpen r2 with
      | none => none
      | some j2 =>
        let r3 := (r2.drop (j2 + amOpen.length))
        match findSub? amClose r3 with
        | none => none
        | some j3 =>
          let msg := r3.take j3
          let r4 := r3.drop (j3 + amClose.length)
          let scrStep : Option Str × Str :=
            match findSub? scrOpen r4 with
            | none => (none, r4)
            | some k1 =>
              let q := r4.drop (k1 + scrOpen.length)
              match findSub? scrClose q with
              | none => (none, r4)
              | some k2 =>
                let rest := q.drop (k2 + scrClose.length)
                if containsSub parClose rest then (some (q.take k2), rest)
                else (none, r4)
          let r5 := scrStep.2
          let omniStep : Option Str × Str :=
            match findSub? omniOpen r5 with
            | none => (none, r5)
            | some k1 =>
              let q := r5.drop (k1 + omniOpen.length)
              match findSub? omniClose q with
              | none => (none, r5)
              | some k2 =>
                let rest := q.drop (k2 + omniClose.length)
                if containsSub parClose rest then (some (q.take k2), rest)
                else (none, r5)
          let r6 := omniStep.2
          if containsSub parClose r6 then
            some { isSuccess := isSucc, message := msg,
                   screenshotCap := scrStep.1, omniCap := omniStep.1 }
          else none

/-- `MessagePatterns.performActionResultMatch` (messagePatterns.ts:191-211).
The screenshot and omni groups pass through the `resultMatch[n] && ...`
truthiness guard; `JSON.parse` of a malformed `omni_parser` payload throws,
which propagates out of the caller, modelled by `Except.error`. -/
def performActionResultMatch (fullMatch : Str) :
    Except Unit (Option ProcessedPart) :=
  match arMatch fullMatch with
  | none => .ok none
  | some m =>
    let st : RStatus := if m.isSuccess then .success else .error
    let scr : Option Str :=
      match m.screenshotCap with
      | some c => if c = [] then none else some c
      | none => none
    match m.omniCap with
    | some c =>
      if c = [] then
        .ok (some { length := fullMatch.length
                    part := .actionResult st m.message scr none })
      else
        match jsonParse c with
        | some v =>
          .ok (some { length := fullMatch.length
                      part := .actionResult st m.message scr (some v) })
        | none => .error ()
    | none =>
      .ok (some { length := fullMatch.length
                  part := .actionResult st m.message scr none })

def notNl (c : Char) : Bool := c != '\n' && c != '\r'

/-- A `<t>(.*?)</t>` group without the `s` flag inside a lazy-gap chain: the
capture may not contain a line terminator, so the match commits to the
first opening tag whose closing tag is reachable on the same line. -/
def capNoNl (openT closeT s : Str) : Option (Str × Str) :=
  firstHit (fun o =>
    if openT.isPrefixOf (s.drop o) then
      let r := s.drop (o + openT.length)
      match findSub? closeT r with
      | none => none
      | some j =>
        if (r.take j).all notNl then
          some (r.take j, r.drop (j + closeT.length))
        else none
    else none) (List.range (s.length + 1))

/-- One `exec` step of the clickable-element regex of
`processExploreOutput` (messagePatterns.ts:287-298): returns the captured
element and the remainder of the text past the match. -/
def ceMatchOne (s : Str) : Option (ClickableElement × Str) :=
  match findSub? ceOpen s with
  | none => none
  | some i =>
    let r1 := s.drop (i + ceOpen.length)
    match capNoNl textOpen textClose r1 with
    | none => none
    | some (t, r2) =>
      match capNoNl coordsOpen coordsClose r2 with
      | none => none
      | some (co, r3) =>
        match capNoNl ateOpen ateClose r3 with
        | none => none
        | some (ab, r4) =>
          match findSub? ceClose r4 with
          | none => none
          | some k =>
            some ({ text := trimStr t, coordinates := trimStr co,
                    aboutThisElement := trimStr ab },
                  r4.drop (k + ceClose.length))

theorem firstHit_eq_some {α : Type} (f : Nat → Option α) (l : List Nat)
    (a : α) (h : firstHit f l = some a) : ∃ j ∈ l, f j = some a := by
  induction l with
  | nil => cases h
  | cons j rest ih =>
    rw [firstHit] at h
    cases hf : f j with
    | some b =>
      rw [hf] at h
      cases h
      exact ⟨j, by simp, hf⟩
    | none =>
      rw [hf] at h
      obtain ⟨j', hj', hfj'⟩ := ih h
      exact ⟨j', by simp [hj'], hfj'⟩

theorem findSub?_le (pat s : Str) (i : Nat) (hne : pat ≠ [])
    (h : findSub? pat s = some i) : i + pat.length ≤ s.length := by
  obtain ⟨hocc, -⟩ := (findSub?_eq_some_iff pat s i).mp h
  rcases occAt_length_le pat s i hocc with hle | hnil
  · exact hle
  · exact absurd hnil hne

theorem capNoNl_length (openT closeT s t r : Str) (hne : closeT ≠ [])
    (h : capNoNl openT closeT s = some (t, r)) : r.length ≤ s.length := by
  obtain ⟨o, -, ho⟩ := firstHit_eq_some _ _ _ h
  by_cases hpre : openT.isPrefixOf (s.drop o)
  · simp only [hpre, if_true] at ho
    cases hj : findSub? closeT (s.drop (o + openT.length)) with
    | none => simp only [hj] at ho; cases ho
    | some j =>
      simp only [hj] at ho
      by_cases hall : ((s.drop (o + openT.length)).take j).all notNl
      · simp only [hall, if_true] at ho
        cases ho
        rw [List.drop_drop, List.length_drop]
        omega
      · simp only [hall] at ho
        simp at ho
  · simp only [hpre] at ho
    simp at ho

theorem ceMatchOne_length (s : Str) (e : ClickableElement) (r : Str)
    (h : ceMatchOne s = some (e, r)) : r.length < s.length := by
  unfold ceMatchOne at h
  cases hi : findSub? ceOpen s with
  | none => simp only [hi] at h; cases h
  | some i =>
    simp only [hi] at h
    have hle : i + ceOpen.length ≤ s.length :=
      findSub?_le _ _ _ (by decide) hi
    cases h1 : capNoNl textOpen textClose (s.drop (i + ceOpen.length)) with
    | none => simp only [h1] at h; cases h
    | some p1 =>
      simp only [h1] at h
      cases h2 : capNoNl coordsOpen coordsClose p1.2 with
      | none => simp only [h2] at h; cases h
      | some p2 =>
        simp only [h2] at h
        cases h3 : capNoNl ateOpen ateClose p2.2 with
        | none => simp only [h3] at h; cases h
        | some p3 =>
          simp only [h3] at h
          cases h4 : findSub? ceClose p3.2 with
          | none => simp only [h4] at h; cases h
          | some k =>
            simp only [h4] at h
            cases h
            have l1 := capNoNl_length textOpen textClose
              (s.drop (i + ceOpen.length)) p1.1 p1.2 (by decide) (by rw [h1])
            have l2 := capNoNl_length coordsOpen coordsClose
              p1.2 p2.1 p2.2 (by decide) (by rw [h2])
            have l3 := capNoNl_length ateOpen ateClose
              p2.2 p3.1 p3.2 (by decide) (by rw [h3])
            have l4 := findSub?_le _ _ _ (by decide) h4
            rw [List.length_drop] at l1
            rw [List.length_drop]
            have hce : (1 : Nat) ≤ ceOpen.length := by decide
            have hcc : (1 : Nat) ≤ ceClose.length := by decide
            omega

/-- The `while (regex.exec(...))` loop of `processExploreOutput`. -/
def ceMatchAll (s : Str) : List ClickableElement :=
  match h : ceMatchOne s with
  | none => []
  | some (e, rest) => e :: ceMatchAll rest
termination_by s.length
decreasing_by exact ceMatchOne_length s e rest h

/-- `MessagePatterns.processExploreOutput` (messagePatterns.ts:286-307). -/
def processExploreOutput (s : Str) : ProcessedPart :=
  { length := s.length, part := .exploreOutput (ceMatchAll s) }

def tagOpenOf : Nat → Str
  | 0 => afqOpen
  | 1 => ctOpen
  | 2 => paOpen
  | 3 => parOpen
  | _ => eoOpen

def tagCloseOf : Nat → Str
  | 0 => afqClose
  | 1 => ctClose
  | 2 => paClose
  | 3 => parClose
  | _ => eoClose

def tagProcOf : Nat → Str → Except Unit (Option ProcessedPart)
  | 0 => fun s => .ok (processFollowupQuestion s)
  | 1 => fun s => .ok (processCompleteTaskMatch s)
  | 2 => fun s => .ok (performActionMatch s)
  | 3 => performActionResultMatch
  | _ => fun s => .ok (some (processExploreOutput s))

/-- The `tagStarts.reduce` of parseMessage (messagePatterns.ts:88-91): keep
the strictly smaller index, first pair winning ties. -/
def minTag : List (Nat × Nat) → Option (Nat × Nat)
  | [] => none
  | c :: rest =>
    some (rest.foldl (fun best cur => if cur.2 < best.2 then cur else best) c)

/-- The earliest opening tag among the five tag pairs
(messagePatterns.ts:69-91): pair index and position. -/
def earliestOpen (s : Str) : Option (Nat × Nat) :=
  minTag ([0, 1, 2, 3, 4].filterMap
    (fun k => (findSub? (tagOpenOf k) s).map (fun i => (k, i))))

theorem foldl_min_mem (l : List (Nat × Nat)) :
    ∀ c : Nat × Nat,
      (l.foldl (fun best cur => if cur.2 < best.2 then cur else best) c)
        ∈ c :: l := by
  induction l with
  | nil => intro c; simp
  | cons d rest ih =>
    intro c
    simp only [List.foldl_cons]
    by_cases hd : d.2 < c.2
    · rw [if_pos hd]
      rcases List.mem_cons.mp (ih d) with h | h
      · simp [h]
      · simp [List.mem_cons, h]
    · rw [if_neg hd]
      rcases List.mem_cons.mp (ih c) with h | h
      · simp [h]
      · simp [List.mem_cons, h]

theorem minTag_mem (l : List (Nat × Nat)) (x : Nat × Nat)
    (h : minTag l = some x) : x ∈ l := by
  cases l with
  | nil => cases h
  | cons c rest =>
    simp only [minTag] at h
    cases h
    exact foldl_min_mem rest c

theorem earliestOpen_spec (s : Str) (k i : Nat)
    (h : earliestOpen s = some (k, i)) :
    k < 5 ∧ findSub? (tagOpenOf k) s = some i := by
  have hmem := minTag_mem _ _ h
  rw [List.mem_filterMap] at hmem
  obtain ⟨a, ha, hfa⟩ := hmem
  cases hfs : findSub? (tagOpenOf a) s with
  | none => rw [hfs] at hfa; cases hfa
  | some ia =>
    rw [hfs] at hfa
    simp only [Option.map_some'] at hfa
    cases hfa
    refine ⟨?_, hfs⟩
    fin_cases ha <;> omega

theorem tagOpenOf_ne_nil (k : Nat) : (tagOpenOf k).length ≠ 0 := by
  match k with
  | 0 => decide
  | 1 => decide
  | 2 => decide
  | 3 => decide
  | n + 4 => exact (by decide : eoOpen.length ≠ 0)

theorem tagCloseOf_ne_nil (k : Nat) : (tagCloseOf k).length ≠ 0 := by
  match k with
  | 0 => decide
  | 1 => decide
  | 2 => decide
  | 3 => decide
  | n + 4 => exact (by decide : eoClose.length ≠ 0)

/-- `MessagePatterns.parseMessage` (messagePatterns.ts:34-142): repeatedly
take the earliest opening tag; text before it becomes a trimmed text part;
with no matching closing tag the opening tag itself becomes a text part and
scanning resumes just past it; otherwise the span up to the first closing
tag is handed to the per-tag processor and scanning resumes past the span.
A processor that throws (`performActionResultMatch` on malformed JSON)
aborts the whole parse, modelled by `Except.error`. -/
def parseMessage (s : Str) : Except Unit (List MessagePart) :=
  match h : earliestOpen s with
  | none => .ok (if trimStr s = [] then [] else [MessagePart.text (trimStr s)])
  | some (k, i) =>
    let preText := trimStr (s.take i)
    let pre : List MessagePart := if preText = [] then [] else [.text preText]
    match findSub? (tagCloseOf k) (s.drop (i + (tagOpenOf k).length)) with
    | none =>
      (parseMessage (s.drop (i + (tagOpenOf k).length))).map
        (fun ps => pre ++ [MessagePart.text (tagOpenOf k)] ++ ps)
    | some c =>
      let fullTag := (s.drop i).take
        ((tagOpenOf k).length + c + (tagCloseOf k).length)
      match tagProcOf k fullTag with
      | .error e => .error e
      | .ok none =>
        (parseMessage
            (s.drop (i + (tagOpenOf k).length + c + (tagCloseOf k).length))).map
          (fun ps => pre ++ ps)
      | .ok (some pr) =>
        (parseMessage
            (s.drop (i + (tagOpenOf k).length + c + (tagCloseOf k).length))).map
          (fun ps => pre ++ [pr.part] ++ ps)
termination_by s.length
decreasing_by
  all_goals
    have hspec := earliestOpen_spec s k i h
    have hlen := findSub?_le _ _ _
      (by intro hc; exact tagOpenOf_ne_nil k (by simp [hc])) hspec.2
    have hop := tagOpenOf_ne_nil k
    simp only [List.length_drop]
    omega

/-!
Embedding of the action-result serialization of
`MessageProcessor.processMessage` (messageProcessor.ts:85-94).
-/

structure FActionResponse where
  status : RStatus
  message : Str
  error : Str
  screenshot : Option Str
  omniParserResult : Option Json
deriving DecidableEq

/-- `response.message || response.error || "Action completed"`
(messageProcessor.ts:85-86); JS `||` falls through on the empty string, and
an absent `error` is modelled as the empty string. -/
def actionMessageOf (r : FActionResponse) : Str :=
  if r.message ≠ [] then r.message
  else if r.error ≠ [] then r.error
  else lit "Action completed"

/-- The `perform_action_result` markup built by processMessage
(messageProcessor.ts:89-94): the screenshot line is emitted only for a
truthy (non-empty) screenshot, the omni line only for a present
omniParserResult, and absent lines leave their newline behind. -/
def serializeActionResult (r : FActionResponse) : Str :=
  lit "<perform_action_result>\n<action_status>" ++
    (if r.status = RStatus.success then lit "success" else lit "error") ++
    lit "</action_status>\n<action_message>" ++ actionMessageOf r ++
    lit "</action_message>\n" ++
    (match r.screenshot with
     | some sc => if sc = [] then [] else scrOpen ++ sc ++ scrClose
     | none => []) ++
    lit "\n" ++
    (match r.omniParserResult with
     | some j => omniOpen ++ jsonStringify j ++ omniClose
     | none => []) ++
    lit "\n</perform_action_result>"

/-!
Embedding of `src/backend/src/services/actionExecutorService.ts`.
-/

inductive JsNum where
  | int (n : Int) : JsNum
  | nan : JsNum
  | undef : JsNum
deriving DecidableEq

/-- JS `String.prototype.split(',')`. -/
def splitComma : Str → List Str
  | [] => [[]]
  | c :: rest =>
    let r := splitComma rest
    if c = ',' then [] :: r
    else (c :: r.headD []) :: r.tail

/-- JS `parseInt` with no radix argument: leading whitespace skipped, an
optional sign, a `0x`/`0X` prefix selecting base 16, then the maximal digit
prefix; no digits yields NaN. -/
def jsParseInt (s : Str) : JsNum :=
  let s1 := s.dropWhile isJsWs
  let p1 : Bool × Str :=
    match s1 with
    | '-' :: r => (true, r)
    | '+' :: r => (false, r)
    | _ => (false, s1)
  let p2 : Nat × Str :=
    match p1.2 with
    | '0' :: 'x' :: r => (16, r)
    | '0' :: 'X' :: r => (16, r)
    | _ => (10, p1.2)
  let isDig : Char → Bool :=
    fun c => if p2.1 = 16 then (hexVal? c).isSome else isDigitc c
  let digits := p2.2.takeWhile isDig
  if digits = [] then JsNum.nan
  else
    let v := digits.foldl (fun acc c => acc * p2.1 + ((hexVal? c).getD 0)) 0
    JsNum.int (if p1.1 then -(v : Int) else (v : Int))

/-- `request.coordinate ? parseInt(request.coordinate.split(',')[0]) :
undefined` (actionExecutorService.ts:76): an absent or empty (falsy)
coordinate yields `undefined`. -/
def coordX (coordinate : Option Str) : JsNum :=
  match coordinate with
  | none => JsNum.undef
  | some c => if c = [] then JsNum.undef else jsParseInt ((splitComma c).headD [])

/-- As `coordX` for `split(',')[1]` (actionExecutorService.ts:77):
`split(',')[1]` is `undefined` when the string has no comma, and
`parseInt(undefined)` is NaN. -/
def coordY (coordinate : Option Str) : JsNum :=
  match coordinate with
  | none => JsNum.undef
  | some c =>
    if c = [] then JsNum.undef
    else
      match (splitComma c).get? 1 with
      | some seg => jsParseInt seg
      | none => JsNum.nan

structure BActionResponse where
  status : Str
  message : Str
  screenshot : Str
  error : Option Str := none
deriving DecidableEq

structure ActionRequest where
  source : Str
  action : Str
  url : Option Str
  coordinate : Option Str
  text : Option Str
  key : Option Str
deriving DecidableEq

structure DispatchArgs where
  action : Str
  url : Option Str
  x : JsNum
  y : JsNum
  text : Option Str
  key : Option Str
deriving DecidableEq

/-- Behaviour of the adapter services during one `executeAction` call: each
call may return a response or throw (`Except.error` carries the thrown
error's message, as read by the catch block). `dockerInitOk` is whether
`initializeDockerVNC`'s inner `initialize('')` succeeds. -/
structure AdapterEnv where
  puppeteerPerform : DispatchArgs → Except Str BActionResponse
  puppeteerInit : Str → Except Str BActionResponse
  dockerPerform : DispatchArgs → Except Str BActionResponse
  dockerInitOk : Bool

structure ExecState where
  initializedPuppeteer : Bool
  initializedDocker : Bool
deriving DecidableEq

/-- Instrumented outcome of `executeAction`: the returned response, the
arguments passed to the selected service's `performAction` (if it was
invoked), the url passed to puppeteer `initialize` (if it was), and the
updated initialized-flags. -/
structure ExecResult where
  response : BActionResponse
  dispatch : Option DispatchArgs
  launched : Option Str
  finalState : ExecState

def srcPuppeteer : Str := lit "chrome-puppeteer"
def srcDocker : Str := lit "ubuntu-docker-vnc"

def dockerUnsupportedMsg (a : Str) : Str :=
  lit "Action \x27" ++ a ++ lit "\x27 is not supported for Docker VNC source"

/-- The catch block of `executeAction` (actionExecutorService.ts:81-89). -/
def catchResponse (e : Str) : BActionResponse :=
  { status := lit "error", message := lit "Action execution failed",
    screenshot := [], error := some e }

def mkDispatch (req : ActionRequest) : DispatchArgs :=
  { action := req.action
    url := req.url
    x := coordX req.coordinate
    y := coordY req.coordinate
    text := req.text
    key := req.key }

/-- `ActionExecutorService.executeAction` (actionExecutorService.ts:32-101).
`getServiceForSource` throws on an unknown source and the surrounding
try/catch converts every thrown error into the generic
`Action execution failed` response; capability violations return early
without touching an adapter; a browser `launch` requires a truthy url and
goes to `initialize`; everything else is dispatched to the selected
service's `performAction` with parseInt-converted coordinates. -/
def executeAction (req : ActionRequest) (env : AdapterEnv) (st : ExecState) :
    ExecResult :=
  if req.source = srcDocker then
    if req.action = lit "launch" ∨ req.action = lit "back" then
      { response := { status := lit "error"
                      message := dockerUnsupportedMsg req.action
                      screenshot := [] }
        dispatch := none
        launched := none
        finalState := st }
    else
      let st1 := if st.initializedDocker then st
        else { st with initializedDocker := env.dockerInitOk }
      let args := mkDispatch req
      match env.dockerPerform args with
      | .ok r =>
        { response := r
          dispatch := some args
          launched := none
          finalState := st1 }
      | .error e =>
        { response := catchResponse e
          dispatch := some args
          launched := none
          finalState := st1 }
  else if req.source = srcPuppeteer then
    if req.action = lit "doubleClick" then
      { response := { status := lit "error"
                      message := lit "Double click action is only supported for Docker VNC source"
                      screenshot := [] }
        dispatch := none
        launched := none
        finalState := st }
    else if req.action = lit "launch" then
      match req.url with
      | none =>
        { response := { status := lit "error"
                        message := lit "URL is required for launch action"
                        screenshot := [] }
          dispatch := none
          launched := none
          finalState := st }
      | some u =>
        if u = [] then
          { response := { status := lit "error"
                          message := lit "URL is required for launch action"
                          screenshot := [] }
            dispatch := none
            launched := none
            finalState := st }
        else
          match env.puppeteerInit u with
          | .ok r =>
            { response := r
              dispatch := none
              launched := some u
              finalState := { st with initializedPuppeteer := true } }
          | .error e =>
            { response := catchResponse e
              dispatch := none
              launched := some u
              finalState := st }
    else
      let args := mkDispatch req
      match env.puppeteerPerform args with
      | .ok r =>
        { response := r
          dispatch := some args
          launched := none
          finalState := st }
      | .error e =>
        { response := catchResponse e
          dispatch := some args
          launched := none
          finalState := st }
  else
    { response := catchResponse (lit "Unknown source: " ++ req.source)
      dispatch := none
      launched := none
      finalState := st }

def isIntStr (s : Str) : Bool :=
  match s with
  | [] => false
  | '-' :: d => !d.isEmpty && d.all isDigitc
  | _ => s.all isDigitc

/-- Modelled from the spec: "Coordinate: integer pair parsed from the raw
string; invalid format ... is a validation failure" — a well-formed
coordinate string is exactly two comma-separated (optionally signed)
decimal integers, up to surrounding whitespace. -/
def wellFormedCoord (c : Str) : Bool :=
  match splitComma c with
  | [xs, ys] => isIntStr (trimStr xs) && isIntStr (trimStr ys)
  | _ => false

/-!
Embedding of `DockerActions.getUrl` (DockerActions.ts:233-426).
-/

structure UrlCacheEntry where
  url : Str
  timestamp : Int
deriving DecidableEq

def URL_CACHE_TTL : Int := 2000

/-- Outcomes of the shell commands run by one cache-miss extraction:
`scriptResult` is the output of the URL-bar extraction script (`none` = the
command threw), `windowTitles` the per-window `xprop` outputs of the
window-title fallback (`none` = enumerating the windows threw). -/
structure GetUrlEnv where
  scriptResult : Option Str
  windowTitles : Option (List (Option Str))
deriving DecidableEq

def aboutBlank : Str := lit "about:blank"

def startsWithHttp (s : Str) : Bool :=
  (lit "http://").isPrefixOf s || (lit "https://").isPrefixOf s

structure GetUrlResult where
  url : Str
  cache : Option UrlCacheEntry
  extractionRan : Bool
deriving DecidableEq

def getUrlFallback (now : Int) : GetUrlResult :=
  { url := aboutBlank, cache := some { url := aboutBlank, timestamp := now },
    extractionRan := true }

def getUrlTitles (now : Int) : List (Option Str) → GetUrlResult
  | [] => getUrlFallback now
  | none :: rest => getUrlTitles now rest
  | some t :: rest =>
    if trimStr t ≠ [] ∧ startsWithHttp t then
      { url := trimStr t, cache := some { url := trimStr t, timestamp := now },
        extractionRan := true }
    else getUrlTitles now rest

def getUrlMethod2 (now : Int) (env : GetUrlEnv) : GetUrlResult :=
  match env.windowTitles with
  | some titles => getUrlTitles now titles
  | none => getUrlFallback now

def getUrlExtract (now : Int) (env : GetUrlEnv) : GetUrlResult :=
  match env.scriptResult with
  | some r =>
    if trimStr r ≠ [] ∧ startsWithHttp r then
      { url := trimStr r, cache := some { url := trimStr r, timestamp := now },
        extractionRan := true }
    else getUrlMethod2 now env
  | none => getUrlMethod2 now env

/-- `DockerActions.getUrl` for one container: `cache` is the container's
current cache entry, `now` is `Date.now()`; a fresh entry short-circuits,
otherwise the three-tier extraction runs and its result (successful URL or
the `about:blank` placeholder) is cached with the current timestamp. -/
def getUrl (cache : Option UrlCacheEntry) (now : Int) (env : GetUrlEnv) :
    GetUrlResult :=
  match cache with
  | some e =>
    if now - e.timestamp < URL_CACHE_TTL then
      { url := e.url, cache := some e, extractionRan := false }
    else getUrlExtract now env
  | none => getUrlExtract now env

/-!
Embedding of the loading-monitor timer discipline of
`PuppeteerActions.startLoadingMonitor` (PuppeteerActions.ts:600-717).
Timers are modelled explicitly: `active` is the list of armed interval ids,
so that a forgotten `clearInterval` would show up as two simultaneous
timers.
-/

structure TimerWorld where
  nextId : Nat
  active : List Nat
deriving DecidableEq

def clearIntervalW (w : TimerWorld) (id : Nat) : TimerWorld :=
  { w with active := w.active.erase id }

def setIntervalW (w : TimerWorld) : Nat × TimerWorld :=
  (w.nextId, { nextId := w.nextId + 1, active := w.active ++ [w.nextId] })

structure MonitorState where
  loadingMonitorInterval : Option Nat
  isMonitoringLoading : Bool
deriving DecidableEq

/-- `startLoadingMonitor` (PuppeteerActions.ts:600-610): clear any existing
monitoring interval, then arm the new 500ms poll. -/
def startLoadingMonitor (w : TimerWorld) (st : MonitorState) :
    TimerWorld × MonitorState :=
  let w1 :=
    match st.loadingMonitorInterval with
    | some id => clearIntervalW w id
    | none => w
  let p := setIntervalW w1
  (p.2, { loadingMonitorInterval := some p.1, isMonitoringLoading := true })

/-- The clearing done by the poll callback on completion or error
(PuppeteerActions.ts:691-715). -/
def loadingMonitorFinish (w : TimerWorld) (st : MonitorState) :
    TimerWorld × MonitorState :=
  match st.loadingMonitorInterval with
  | some id =>
    (clearIntervalW w id,
     { loadingMonitorInterval := none, isMonitoringLoading := false })
  | none => (w, { st with isMonitoringLoading := false })

/-!
Theorems about the action router.
-/

/-- The service function that `performAction` is dispatched to, by source. -/
def adapterFor (req : ActionRequest) (env : AdapterEnv) :
    DispatchArgs → Except Str BActionResponse :=
  if req.source = srcDocker then env.dockerPerform else env.puppeteerPerform

theorem executeAction_dispatch_spec (req : ActionRequest) (env : AdapterEnv)
    (st : ExecState) (args : DispatchArgs)
    (h : (executeAction req env st).dispatch = some args) :
    args = mkDispatch req ∧
    (executeAction req env st).response =
      (match adapterFor req env args with
       | .ok r => r
       | .error e => catchResponse e) := by
  unfold executeAction at h ⊢
  by_cases hd : req.source = srcDocker
  · rw [if_pos hd] at h ⊢
    by_cases hl : req.action = lit "launch" ∨ req.action = lit "back"
    · rw [if_pos hl] at h; cases h
    · rw [if_neg hl] at h ⊢
      have hadapt : adapterFor req env = env.dockerPerform := by
        unfold adapterFor; rw [if_pos hd]
      cases hp : env.dockerPerform (mkDispatch req) with
      | ok r =>
        simp only [hp] at h ⊢
        cases h
        rw [hadapt, hp]
        exact ⟨rfl, rfl⟩
      | error e =>
        simp only [hp] at h ⊢
        cases h
        rw [hadapt, hp]
        exact ⟨rfl, rfl⟩
  · rw [if_neg hd] at h ⊢
    by_cases hpup : req.source = srcPuppeteer
    · rw [if_pos hpup] at h ⊢
      by_cases hdc : req.action = lit "doubleClick"
      · rw [if_pos hdc] at h; cases h
      · rw [if_neg hdc] at h ⊢
        by_cases hla : req.action = lit "launch"
        · rw [if_pos hla] at h
          cases hu : req.url with
          | none => simp only [hu] at h; cases h
          | some u =>
            simp only [hu] at h
            by_cases hue : u = []
            · rw [if_pos hue] at h; cases h
            · rw [if_neg hue] at h
              cases hi : env.puppeteerInit u with
              | ok r => simp only [hi] at h; cases h
              | error e => simp only [hi] at h; cases h
        · rw [if_neg hla] at h ⊢
          have hadapt : adapterFor req env = env.puppeteerPerform := by
            unfold adapterFor; rw [if_neg hd]
          cases hp : env.puppeteerPerform (mkDispatch req) with
          | ok r =>
            simp only [hp] at h ⊢
            cases h
            rw [hadapt, hp]
            exact ⟨rfl, rfl⟩
          | error e =>
            simp only [hp] at h ⊢
            cases h
            rw [hadapt, hp]
            exact ⟨rfl, rfl⟩
    · rw [if_neg hpup] at h; cases h

/-- C1 (amended): executeAction performs no coordinate validation — whenever
a request is dispatched to an adapter's performAction, the x/y arguments
are the `parseInt` conversions of the comma-split coordinate string
(`coordX`/`coordY`), so a malformed coordinate component arrives at the
adapter as NaN (and a missing one as NaN/undefined) rather than being
rejected as a validation failure before dispatch. -/
theorem executeAction_dispatch_args (req : ActionRequest) (env : AdapterEnv)
    (st : ExecState) (args : DispatchArgs)
    (h : (executeAction req env st).dispatch = some args) :
    args = mkDispatch req ∧ args.x = coordX req.coordinate ∧
    args.y = coordY req.coordinate := by
  have hs := executeAction_dispatch_spec req env st args h
  exact ⟨hs.1, by rw [hs.1]; rfl, by rw [hs.1]; rfl⟩

def okResp : BActionResponse :=
  { status := lit "success", message := lit "ok", screenshot := [] }

def cEnvOk : AdapterEnv :=
  { puppeteerPerform := fun _ => .ok okResp
    puppeteerInit := fun _ => .ok okResp
    dockerPerform := fun _ => .ok okResp
    dockerInitOk := true }

def cEnvErr : AdapterEnv :=
  { puppeteerPerform := fun _ => .error (lit "boom")
    puppeteerInit := fun _ => .error (lit "boom")
    dockerPerform := fun _ => .error (lit "boom")
    dockerInitOk := true }

def cSt0 : ExecState :=
  { initializedPuppeteer := false, initializedDocker := true }

def c1Req : ActionRequest :=
  { source := srcPuppeteer, action := lit "click", url := none
    coordinate := some (lit "abc,def"), text := none, key := none }

theorem executeAction_dispatch_args_witness :
    (executeAction c1Req cEnvOk cSt0).dispatch = some (mkDispatch c1Req) ∧
    (mkDispatch c1Req = mkDispatch c1Req ∧
      (mkDispatch c1Req).x = coordX c1Req.coordinate ∧
      (mkDispatch c1Req).y = coordY c1Req.coordinate) :=
  ⟨rfl, executeAction_dispatch_args c1Req cEnvOk cSt0 (mkDispatch c1Req) rfl⟩

/-- C1 counterexample: the claim that a request with a malformed coordinate
is rejected before dispatch is false — for a `click` with coordinate
`"abc,def"` (not a well-formed integer pair) the browser adapter's
performAction is invoked, with both x and y equal to NaN. -/
theorem executeAction_malformed_coordinate_dispatched :
    wellFormedCoord (lit "abc,def") = false ∧
    (executeAction c1Req cEnvOk cSt0).dispatch ≠ none ∧
    (executeAction c1Req cEnvOk cSt0).dispatch =
      some { action := lit "click", url := none, x := JsNum.nan, y := JsNum.nan
             text := none, key := none } :=
  ⟨by decide, by decide, by decide⟩

/-- C2: a `launch` or `back` request on the desktop backend, and a
`doubleClick` request on the browser backend, always produce a
status-"error" capability response, with no adapter performAction and no
browser initialization, regardless of the other request parameters. -/
theorem capability_matrix_rejections (req : ActionRequest) (env : AdapterEnv)
    (st : ExecState)
    (h : (req.source = srcDocker ∧
            (req.action = lit "launch" ∨ req.action = lit "back")) ∨
         (req.source = srcPuppeteer ∧ req.action = lit "doubleClick")) :
    (executeAction req env st).response.status = lit "error" ∧
    (executeAction req env st).dispatch = none ∧
    (executeAction req env st).launched = none ∧
    (executeAction req env st).finalState = st := by
  rcases h with ⟨hs, ha⟩ | ⟨hs, ha⟩
  · unfold executeAction
    rw [if_pos hs, if_pos ha]
    exact ⟨rfl, rfl, rfl, rfl⟩
  · unfold executeAction
    rw [if_neg (by rw [hs]; decide), if_pos hs, if_pos ha]
    exact ⟨rfl, rfl, rfl, rfl⟩

def c2Req : ActionRequest :=
  { source := srcDocker, action := lit "launch", url := some (lit "http://x")
    coordinate := some (lit "1,2"), text := none, key := none }

theorem capability_matrix_rejections_witness :
    ((c2Req.source = srcDocker ∧
        (c2Req.action = lit "launch" ∨ c2Req.action = lit "back")) ∨
      (c2Req.source = srcPuppeteer ∧ c2Req.action = lit "doubleClick")) ∧
    ((executeAction c2Req cEnvOk cSt0).response.status = lit "error" ∧
      (executeAction c2Req cEnvOk cSt0).dispatch = none ∧
      (executeAction c2Req cEnvOk cSt0).launched = none ∧
      (executeAction c2Req cEnvOk cSt0).finalState = cSt0) :=
  ⟨by decide, capability_matrix_rejections c2Req cEnvOk cSt0 (by decide)⟩

/-- C7: executeAction always returns an ActionResponse value — an unknown
source's routing error is caught and converted into the generic
`Action execution failed` response, a throwing adapter performAction is
converted into a status-"error" response carrying the error message, and a
returned adapter response is passed through unchanged. -/
theorem executeAction_total_error_conversion (req : ActionRequest)
    (env : AdapterEnv) (st : ExecState) :
    (req.source ≠ srcDocker → req.source ≠ srcPuppeteer →
      executeAction req env st =
        { response := catchResponse (lit "Unknown source: " ++ req.source)
          dispatch := none
          launched := none
          finalState := st }) ∧
    (∀ args e, (executeAction req env st).dispatch = some args →
      adapterFor req env args = Except.error e →
      (executeAction req env st).response = catchResponse e ∧
      (executeAction req env st).response.status = lit "error") ∧
    (∀ args r, (executeAction req env st).dispatch = some args →
      adapterFor req env args = Except.ok r →
      (executeAction req env st).response = r) := by
  refine ⟨?_, ?_, ?_⟩
  · intro hnd hnp
    unfold executeAction
    rw [if_neg hnd, if_neg hnp]
  · intro args e hdisp hae
    have hs := executeAction_dispatch_spec req env st args hdisp
    constructor
    · rw [hs.2, hae]
    · rw [hs.2, hae]
      rfl
  · intro args r hdisp har
    have hs := executeAction_dispatch_spec req env st args hdisp
    rw [hs.2, har]

def c7ReqUnknown : ActionRequest :=
  { source := lit "weird-source", action := lit "click", url := none
    coordinate := none, text := none, key := none }

def c7Req : ActionRequest :=
  { source := srcDocker, action := lit "click", url := none
    coordinate := some (lit "3,4"), text := none, key := none }

theorem executeAction_total_error_conversion_witness :
    (executeAction c7ReqUnknown cEnvOk cSt0 =
      { response := catchResponse (lit "Unknown source: " ++ c7ReqUnknown.source)
        dispatch := none
        launched := none
        finalState := cSt0 }) ∧
    ((executeAction c7Req cEnvErr cSt0).response = catchResponse (lit "boom") ∧
      (executeAction c7Req cEnvErr cSt0).response.status = lit "error") ∧
    (executeAction c7Req cEnvOk cSt0).response = okResp :=
  ⟨(executeAction_total_error_conversion c7ReqUnknown cEnvOk cSt0).1
      (by decide) (by decide),
   (executeAction_total_error_conversion c7Req cEnvErr cSt0).2.1
      (mkDispatch c7Req) (lit "boom") rfl rfl,
   (executeAction_total_error_conversion c7Req cEnvOk cSt0).2.2
      (mkDispatch c7Req) okResp rfl rfl⟩

/-- C8: an invocation of the loading monitor first cancels any existing
polling interval before arming the new one: starting from a state whose
armed timers are exactly the tracked interval, afterwards exactly the one
fresh timer is armed and the previously tracked timer is no longer
active. -/
theorem startLoadingMonitor_single_timer (w : TimerWorld) (st : MonitorState)
    (hwf : w.active = st.loadingMonitorInterval.toList)
    (hfresh : ∀ id ∈ w.active, id < w.nextId) :
    (startLoadingMonitor w st).1.active = [w.nextId] ∧
    (startLoadingMonitor w st).1.active.length = 1 ∧
    (startLoadingMonitor w st).2.loadingMonitorInterval = some w.nextId ∧
    (∀ id, st.loadingMonitorInterval = some id →
      id ∉ (startLoadingMonitor w st).1.active) := by
  cases hm : st.loadingMonitorInterval with
  | none =>
    rw [hm] at hwf
    simp only [Option.toList] at hwf
    refine ⟨?_, ?_, ?_, ?_⟩ <;>
      simp [startLoadingMonitor, setIntervalW, hm, hwf]
  | some tid =>
    rw [hm] at hwf
    simp only [Option.toList] at hwf
    have htid : tid < w.nextId := hfresh tid (by rw [hwf]; simp)
    refine ⟨?_, ?_, ?_, ?_⟩ <;>
      simp [startLoadingMonitor, setIntervalW, clearIntervalW, hm, hwf,
        List.erase_cons_head] <;>
      omega

theorem startLoadingMonitor_single_timer_witness :
    ((⟨5, [3]⟩ : TimerWorld).active =
        (⟨some 3, true⟩ : MonitorState).loadingMonitorInterval.toList ∧
      ∀ id ∈ (⟨5, [3]⟩ : TimerWorld).active, id < (⟨5, [3]⟩ : TimerWorld).nextId) ∧
    ((startLoadingMonitor ⟨5, [3]⟩ ⟨some 3, true⟩).1.active = [5] ∧
      (startLoadingMonitor ⟨5, [3]⟩ ⟨some 3, true⟩).1.active.length = 1 ∧
      (startLoadingMonitor ⟨5, [3]⟩ ⟨some 3, true⟩).2.loadingMonitorInterval
        = some 5 ∧
      (∀ id, (⟨some 3, true⟩ : MonitorState).loadingMonitorInterval = some id →
        id ∉ (startLoadingMonitor ⟨5, [3]⟩ ⟨some 3, true⟩).1.active)) :=
  ⟨⟨by decide, by decide⟩,
   startLoadingMonitor_single_timer ⟨5, [3]⟩ ⟨some 3, true⟩ (by decide)
     (by decide)⟩

theorem getUrlTitles_spec (now : Int) (ts : List (Option Str)) :
    (getUrlTitles now ts).extractionRan = true ∧
    (getUrlTitles now ts).cache =
      some { url := (getUrlTitles now ts).url, timestamp := now } := by
  induction ts with
  | nil => exact ⟨rfl, rfl⟩
  | cons t rest ih =>
    cases t with
    | none => exact ih
    | some t0 =>
      by_cases hc : trimStr t0 ≠ [] ∧ startsWithHttp t0
      · simp [getUrlTitles, if_pos hc]
      · simp only [getUrlTitles, if_neg hc]
        exact ih

theorem getUrlExtract_spec (now : Int) (env : GetUrlEnv) :
    (getUrlExtract now env).extractionRan = true ∧
    (getUrlExtract now env).cache =
      some { url := (getUrlExtract now env).url, timestamp := now } := by
  unfold getUrlExtract getUrlMethod2
  cases hs : env.scriptResult with
  | none =>
    cases ht : env.windowTitles with
    | none => exact ⟨rfl, rfl⟩
    | some titles => exact getUrlTitles_spec now titles
  | some r =>
    by_cases hc : trimStr r ≠ [] ∧ startsWithHttp r
    · simp [if_pos hc]
    · simp only [if_neg hc]
      cases ht : env.windowTitles with
      | none => exact ⟨rfl, rfl⟩
      | some titles => exact getUrlTitles_spec now titles

/-- C9: a `getUrl` call finding a cache entry younger than the 2000ms TTL
returns the cached url without running any extraction and leaves the entry
unchanged; a call with no entry or an entry whose age is at least the TTL
runs the extraction, and the produced url — a successful extraction result
or the `about:blank` placeholder alike — is cached with the current
timestamp. -/
theorem getUrl_cache_ttl (cache : Option UrlCacheEntry) (now : Int)
    (env : GetUrlEnv) :
    (∀ e, cache = some e → now - e.timestamp < URL_CACHE_TTL →
      getUrl cache now env =
        { url := e.url, cache := some e, extractionRan := false }) ∧
    ((∀ e, cache = some e → URL_CACHE_TTL ≤ now - e.timestamp) →
      (getUrl cache now env).extractionRan = true ∧
      (getUrl cache now env).cache =
        some { url := (getUrl cache now env).url, timestamp := now }) := by
  cases hc : cache with
  | none =>
    constructor
    · intro e he
      cases he
    · intro _
      simp only [getUrl]
      exact getUrlExtract_spec now env
  | some e0 =>
    constructor
    · intro e he hyoung
      cases he
      simp only [getUrl]
      rw [if_pos hyoung]
    · intro hold
      have h0 := hold e0 rfl
      simp only [getUrl]
      rw [if_neg (by omega)]
      exact getUrlExtract_spec now env

/-!
Theorems about the protocol parser.
-/

theorem tagSpan_append (o cl u v : Str) (ho : o ≠ []) (hcl : cl ≠ [])
    (h : (tagSpan o cl u).isSome) :
    tagSpan o cl (u ++ v) = tagSpan o cl u := by
  unfold tagSpan at h ⊢
  cases hi : findSub? o u with
  | none => simp only [hi] at h; simp at h
  | some i =>
    have hi2 : findSub? o (u ++ v) = some i := findSub?_append_of_some o u v i hi
    simp only [hi, hi2] at h ⊢
    cases hj : findSub? cl (u.drop (i + o.length)) with
    | none => simp only [hj] at h; simp at h
    | some j =>
      have hile : i + o.length ≤ u.length := findSub?_le _ _ _ ho hi
      have hjle : j + cl.length ≤ (u.drop (i + o.length)).length :=
        findSub?_le _ _ _ hcl hj
      rw [List.length_drop] at hjle
      have hdrop : (u ++ v).drop (i + o.length) = u.drop (i + o.length) ++ v :=
        drop_append_of_le _ _ _ hile
      rw [hdrop]
      simp only [findSub?_append_of_some _ _ _ _ hj, hj]
      have hidrop : (u ++ v).drop i = u.drop i ++ v :=
        drop_append_of_le _ _ _ (by omega)
      rw [hidrop, take_append_of_le]
      rw [List.length_drop]
      omega

/-- C3: extractAction interprets at most one action-bearing block per call:
once a text contains a complete `perform_action` span, appending any
further text — including additional well-formed `perform_action` blocks —
leaves the extracted directive unchanged, so only the earliest complete
span is ever interpreted. -/
theorem extractAction_first_block_only (u v : Str)
    (h : (tagSpan paOpen paClose u).isSome) :
    extractAction (u ++ v) = extractAction u := by
  unfold extractAction
  rw [tagSpan_append paOpen paClose u v (by decide) (by decide) h]

def c3u : Str := lit "x<perform_action><action>click</action></perform_action>"

def c3v : Str :=
  lit "<perform_action><action>type</action><text>hi</text></perform_action>"

theorem extractAction_first_block_only_witness :
    (tagSpan paOpen paClose c3u).isSome ∧
    extractAction (c3u ++ c3v) = extractAction c3u :=
  ⟨by decide, extractAction_first_block_only c3u c3v (by decide)⟩

theorem optField_ne_some_nil (o cl s : Str) : optField o cl s ≠ some [] := by
  unfold optField
  cases h : (tagGroup o cl s).map trimStr with
  | none => simp
  | some v =>
    by_cases hv : v = []
    · simp [hv]
    · simp [hv]

theorem optField_none_of_trim_nil (o cl s : Str)
    (h : (tagGroup o cl s).map trimStr = some []) : optField o cl s = none := by
  unfold optField
  rw [h]
  simp

theorem buildPerformAction_none_of_action_nil (s : Str)
    (h : (tagGroup actOpen actClose s).map trimStr = some []) :
    buildPerformAction s = none := by
  unfold buildPerformAction
  rw [h]
  simp

theorem buildPerformAction_fields (s : Str) (p : PerformAction)
    (h : buildPerformAction s = some p) :
    p.action ≠ [] ∧ p.url ≠ some [] ∧ p.coordinate ≠ some [] ∧
    p.text ≠ some [] ∧ p.key ≠ some [] ∧ p.aboutThisAction ≠ some [] ∧
    p.markerNumber ≠ some [] := by
  unfold buildPerformAction at h
  cases ha : (tagGroup actOpen actClose s).map trimStr with
  | none => simp only [ha] at h; cases h
  | some a =>
    simp only [ha] at h
    by_cases hae : a = []
    · rw [if_pos hae] at h; cases h
    · rw [if_neg hae] at h
      cases h
      exact ⟨hae, optField_ne_some_nil _ _ _, optField_ne_some_nil _ _ _,
        optField_ne_some_nil _ _ _, optField_ne_some_nil _ _ _,
        optField_ne_some_nil _ _ _, optField_ne_some_nil _ _ _⟩

/-- C10: in extractAction's directive and performActionMatch's part,
every present optional sub-field is non-empty — a tag body that trims to
the empty string is entirely absent from the result — and an action body
that trims to the empty string produces no directive/part at all, exactly
as a missing action tag does. -/
theorem extraction_empty_fields_absent :
    (∀ o cl s, (tagGroup o cl s).map trimStr = some [] →
      optField o cl s = none) ∧
    (∀ s d, extractAction s = some d →
      d.action ≠ [] ∧ d.url ≠ some [] ∧ d.coordinate ≠ some [] ∧
      d.text ≠ some [] ∧ d.key ≠ some [] ∧ d.aboutThisAction ≠ some [] ∧
      d.markerNumber ≠ some []) ∧
    (∀ s span, tagSpan paOpen paClose s = some span →
      (tagGroup actOpen actClose span).map trimStr = some [] →
      extractAction s = none) ∧
    (∀ s pr, performActionMatch s = some pr →
      ∀ p, pr.part = MessagePart.performAction p →
        p.action ≠ [] ∧ p.url ≠ some [] ∧ p.coordinate ≠ some [] ∧
        p.text ≠ some [] ∧ p.key ≠ some [] ∧ p.aboutThisAction ≠ some [] ∧
        p.markerNumber ≠ some []) ∧
    (∀ s, (tagGroup actOpen actClose s).map trimStr = some [] →
      performActionMatch s = none) := by
  refine ⟨optField_none_of_trim_nil, ?_, ?_, ?_, ?_⟩
  · intro s d h
    unfold extractAction at h
    cases hsp : tagSpan paOpen paClose s with
    | none => simp only [hsp] at h; cases h
    | some span =>
      simp only [hsp] at h
      exact buildPerformAction_fields span d h
  · intro s span hsp ha
    unfold extractAction
    simp only [hsp]
    exact buildPerformAction_none_of_action_nil span ha
  · intro s pr h p hp
    unfold performActionMatch at h
    by_cases hg : (tagSpan paOpen paClose s).isSome
    · rw [if_pos hg] at h
      cases hb : buildPerformAction s with
      | none => simp only [hb, Option.map] at h; cases h
      | some p0 =>
        simp only [hb] at h
        cases h
        simp only at hp
        have : p0 = p := by
          cases hp
          rfl
        rw [← this]
        exact buildPerformAction_fields s p0 hb
    · rw [if_neg hg] at h; cases h
  · intro s ha
    unfold performActionMatch
    by_cases hg : (tagSpan paOpen paClose s).isSome
    · rw [if_pos hg, buildPerformAction_none_of_action_nil s ha]
      rfl
    · rw [if_neg hg]

def c10s1 : Str :=
  lit "<perform_action><action>click</action><url> </url></perform_action>"

def c10d1 : PerformAction :=
  { action := lit "click", url := none, coordinate := none, text := none
    key := none, aboutThisAction := none, markerNumber := none }

def c10s2 : Str := lit "<perform_action><action> </action></perform_action>"

theorem extraction_empty_fields_absent_witness :
    optField urlOpen urlClose c10s1 = none ∧
    (c10d1.action ≠ [] ∧ c10d1.url ≠ some [] ∧ c10d1.coordinate ≠ some [] ∧
      c10d1.text ≠ some [] ∧ c10d1.key ≠ some [] ∧
      c10d1.aboutThisAction ≠ some [] ∧ c10d1.markerNumber ≠ some []) ∧
    extractAction c10s2 = none ∧
    performActionMatch c10s2 = none :=
  ⟨extraction_empty_fields_absent.1 urlOpen urlClose c10s1 (by decide),
   extraction_empty_fields_absent.2.1 c10s1 c10d1 (by decide),
   extraction_empty_fields_absent.2.2.1 c10s2 c10s2 (by decide) (by decide),
   extraction_empty_fields_absent.2.2.2.2 c10s2 (by decide)⟩

/-- C5: when the earliest opening tag of the text has no matching closing
tag after it, parseMessage neither fails nor loops: it emits the trimmed
preceding text (if non-empty), then the opening tag itself as a literal
text part, and continues with the parse of the remainder just past the
opening tag. -/
theorem parseMessage_unterminated_tag (s : Str) (k i : Nat)
    (h : earliestOpen s = some (k, i))
    (h2 : findSub? (tagCloseOf k) (s.drop (i + (tagOpenOf k).length)) = none) :
    parseMessage s =
      (parseMessage (s.drop (i + (tagOpenOf k).length))).map
        (fun ps =>
          (if trimStr (s.take i) = [] then []
           else [MessagePart.text (trimStr (s.take i))]) ++
          [MessagePart.text (tagOpenOf k)] ++ ps) := by
  rw [parseMessage.eq_def]
  split
  · next heq => rw [h] at heq; cases heq
  · next k' i' heq =>
    rw [h] at heq
    cases heq
    rw [h2]

def c5s : Str := lit "hi <perform_action> world"

theorem parseMessage_unterminated_tag_witness :
    earliestOpen c5s = some (2, 3) ∧
    findSub? (tagCloseOf 2) (c5s.drop (3 + (tagOpenOf 2).length)) = none ∧
    parseMessage c5s =
      (parseMessage (c5s.drop (3 + (tagOpenOf 2).length))).map
        (fun ps =>
          (if trimStr (c5s.take 3) = [] then []
           else [MessagePart.text (trimStr (c5s.take 3))]) ++
          [MessagePart.text (tagOpenOf 2)] ++ ps) :=
  ⟨by decide, by decide,
   parseMessage_unterminated_tag c5s 2 3 (by decide) (by decide)⟩

def c9Entry : UrlCacheEntry := { url := lit "http://ex.com/a", timestamp := 1000 }

def c9Env : GetUrlEnv :=
  { scriptResult := some (lit "garbage"), windowTitles := some [none] }

theorem getUrl_cache_ttl_witness :
    (getUrl (some c9Entry) 2000 c9Env =
      { url := c9Entry.url, cache := some c9Entry, extractionRan := false }) ∧
    ((getUrl (some c9Entry) 3000 c9Env).extractionRan = true ∧
      (getUrl (some c9Entry) 3000 c9Env).cache =
        some { url := (getUrl (some c9Entry) 3000 c9Env).url
               timestamp := 3000 }) :=
  ⟨(getUrl_cache_ttl (some c9Entry) 2000 c9Env).1 c9Entry rfl (by decide),
   (getUrl_cache_ttl (some c9Entry) 3000 c9Env).2
     (fun e he => by cases he; decide)⟩

/-!
C4: field extraction from a single well-formed block.
-/

theorem optField_none_of_not_contains (o cl s : Str)
    (h : containsSub o s = false) : optField o cl s = none := by
  unfold containsSub at h
  unfold optField tagGroup
  cases hf : findSub? o s with
  | none => simp only [hf]; rfl
  | some i => simp [hf] at h

theorem findSub?_zero_of_prefix (pat s : Str) (h : pat <+: s) :
    findSub? pat s = some 0 := by
  rw [findSub?_eq_some_iff]
  exact ⟨(occAt_zero pat s).mpr h, fun j hj => absurd hj (Nat.not_lt_zero j)⟩

theorem not_occAt_extend (pat a b : Str) (j : Nat) (hj : j < a.length)
    (h : ¬ occAt pat (a ++ pat) j) : ¬ occAt pat (a ++ (pat ++ b)) j := by
  intro hocc
  apply h
  have e : a ++ (pat ++ b) = (a ++ pat) ++ b := (List.append_assoc a pat b).symm
  rw [e] at hocc
  exact occAt_left_of_le pat (a ++ pat) b j hocc
    (by rw [List.length_append]; omega)

/-- First-occurrence computation from a decomposition `a ++ pat ++ b`, with
the no-earlier-occurrence side condition needed only on `a ++ pat` (an
occurrence before `a.length` cannot reach past the structural `pat`). -/
theorem findSub?_split_of_short (pat a b : Str)
    (h : ∀ j < a.length, ¬ occAt pat (a ++ pat) j) :
    findSub? pat (a ++ (pat ++ b)) = some a.length :=
  findSub?_split pat a b (fun j hj => not_occAt_extend pat a b j hj (h j hj))

theorem containsSub_of_occAt (pat s : Str) (j : Nat) (h : occAt pat s j) :
    containsSub pat s = true := by
  unfold containsSub
  cases hf : findSub? pat s with
  | some i => rfl
  | none => exact absurd h ((findSub?_eq_none_iff pat s).mp hf j)

theorem containsSub_right (pat u v : Str) (j : Nat) (h : occAt pat v j) :
    containsSub pat (u ++ v) = true :=
  containsSub_of_occAt _ _ _ ((occAt_shift pat u v j).mpr h)

theorem findSub?_eq_none_of_not_contains (pat s : Str)
    (h : containsSub pat s = false) : findSub? pat s = none := by
  unfold containsSub at h
  cases hf : findSub? pat s with
  | none => rfl
  | some i => rw [hf] at h; cases h

theorem jsonStringify_ne_nil (j : Json) : jsonStringify j ≠ [] := by
  obtain ⟨c, t, hct, -⟩ := jsonStringify_head j
  rw [hct]
  exact List.cons_ne_nil c t

/-- The fixed markup of `processMessage`'s template literal up to the
message capture, for a given status flag. -/
def serStart : Bool → Str
  | true => lit "<perform_action_result>\n<action_status>success</action_status>\n<action_message>"
  | false => lit "<perform_action_result>\n<action_status>error</action_status>\n<action_message>"

/-- The tail of `arMatch` from the screenshot step on, with the message
capture and the remainder after `</action_message>` already isolated. -/
def arFinish (isSucc : Bool) (msg r4 : Str) : Option ARMatch :=
  let scrStep : Option Str × Str :=
    match findSub? scrOpen r4 with
    | none => (none, r4)
    | some k1 =>
      let q := r4.drop (k1 + scrOpen.length)
      match findSub? scrClose q with
      | none => (none, r4)
      | some k2 =>
        let rest := q.drop (k2 + scrClose.length)
        if containsSub parClose rest then (some (q.take k2), rest)
        else (none, r4)
  let r5 := scrStep.2
  let omniStep : Option Str × Str :=
    match findSub? omniOpen r5 with
    | none => (none, r5)
    | some k1 =>
      let q := r5.drop (k1 + omniOpen.length)
      match findSub? omniClose q with
      | none => (none, r5)
      | some k2 =>
        let rest := q.drop (k2 + omniClose.length)
        if containsSub parClose rest then (some (q.take k2), rest)
        else (none, r5)
  let r6 := omniStep.2
  if containsSub parClose r6 then
    some { isSuccess := isSucc, message := msg,
           screenshotCap := scrStep.1, omniCap := omniStep.1 }
  else none

set_option maxRecDepth 8000 in
theorem arMatch_decomp (b : Bool) (msg tail : Str)
    (hmsg : ∀ j < msg.length, ¬ occAt amClose (msg ++ amClose) j) :
    arMatch (serStart b ++ (msg ++ (amClose ++ tail))) = arFinish b msg tail := by
  have h4 : findSub? amClose (msg ++ (amClose ++ tail)) = some msg.length :=
    findSub?_split_of_short amClose msg tail hmsg
  have e4 : (msg ++ (amClose ++ tail)).drop (msg.length + amClose.length)
      = tail := by
    have ea : msg ++ (amClose ++ tail) = (msg ++ amClose) ++ tail :=
      (List.append_assoc msg amClose tail).symm
    have el : msg.length + amClose.length = (msg ++ amClose).length := by simp
    rw [ea, el, drop_concat_left]
  cases b
  · have h1 : findSub? parOpen
        (serStart false ++ (msg ++ (amClose ++ tail))) = some 0 := by
      simp [findSub?, List.isPrefixOf, parOpen, serStart, lit]
    have h2 : findSub2? statusSucc statusErr
        ((serStart false ++ (msg ++ (amClose ++ tail))).drop
          (0 + parOpen.length)) = some (1, false) := by
      simp [findSub2?, List.isPrefixOf, parOpen, serStart, statusSucc,
        statusErr, lit]
    have h3 : findSub? amOpen
        (((serStart false ++ (msg ++ (amClose ++ tail))).drop
          (0 + parOpen.length)).drop (1 + statusErr.length)) = some 1 := by
      simp [findSub?, List.isPrefixOf, parOpen, serStart, statusErr, amOpen,
        lit]
    have h3b : ((((serStart false ++ (msg ++ (amClose ++ tail))).drop
          (0 + parOpen.length)).drop (1 + statusErr.length)).drop
          (1 + amOpen.length)) = msg ++ (amClose ++ tail) := rfl
    unfold arMatch
    simp only [h1, h2, Bool.false_eq_true, if_false, h3, h3b, h4,
      take_concat_left, e4]
    rfl
  · have h1 : findSub? parOpen
        (serStart true ++ (msg ++ (amClose ++ tail))) = some 0 := by
      simp [findSub?, List.isPrefixOf, parOpen, serStart, lit]
    have h2 : findSub2? statusSucc statusErr
        ((serStart true ++ (msg ++ (amClose ++ tail))).drop
          (0 + parOpen.length)) = some (1, true) := by
      simp [findSub2?, List.isPrefixOf, parOpen, serStart, statusSucc, lit]
    have h3 : findSub? amOpen
        (((serStart true ++ (msg ++ (amClose ++ tail))).drop
          (0 + parOpen.length)).drop (1 + statusSucc.length)) = some 1 := by
      simp [findSub?, List.isPrefixOf, parOpen, serStart, statusSucc, amOpen,
        lit]
    have h3b : ((((serStart true ++ (msg ++ (amClose ++ tail))).drop
          (0 + parOpen.length)).drop (1 + statusSucc.length)).drop
          (1 + amOpen.length)) = msg ++ (amClose ++ tail) := rfl
    unfold arMatch
    simp only [h1, h2, if_true, h3, h3b, h4, take_concat_left, e4]
    rfl


theorem arFinish_scr_omni (b : Bool) (msg sc om : Str)
    (hsc : ∀ j < sc.length, ¬ occAt scrClose (sc ++ scrClose) j)
    (hom : ∀ j < om.length, ¬ occAt omniClose (om ++ omniClose) j) :
    arFinish b msg (lit "\n" ++ (scrOpen ++ (sc ++ (scrClose ++ (lit "\n" ++
        (omniOpen ++ (om ++ (omniClose ++ (lit "\n" ++ parClose))))))))) =
      some { isSuccess := b, message := msg, screenshotCap := some sc,
             omniCap := some om } := by
  have hso : findSub? scrOpen (lit "\n" ++ (scrOpen ++ (sc ++ (scrClose ++
      (lit "\n" ++ (omniOpen ++ (om ++ (omniClose ++
        (lit "\n" ++ parClose))))))))) = some 1 := by
    simpa using findSub?_split_of_short scrOpen (lit "\n")
      (sc ++ (scrClose ++ (lit "\n" ++ (omniOpen ++ (om ++ (omniClose ++
        (lit "\n" ++ parClose))))))) (by decide)
  have e1 : (lit "\n" ++ (scrOpen ++ (sc ++ (scrClose ++ (lit "\n" ++
      (omniOpen ++ (om ++ (omniClose ++ (lit "\n" ++ parClose))))))))).drop
        (1 + scrOpen.length)
      = sc ++ (scrClose ++ (lit "\n" ++ (omniOpen ++ (om ++ (omniClose ++
        (lit "\n" ++ parClose)))))) := rfl
  have h2 : findSub? scrClose (sc ++ (scrClose ++ (lit "\n" ++ (omniOpen ++
      (om ++ (omniClose ++ (lit "\n" ++ parClose))))))) = some sc.length :=
    findSub?_split_of_short scrClose sc _ hsc
  have e2 : (sc ++ (scrClose ++ (lit "\n" ++ (omniOpen ++ (om ++ (omniClose ++
      (lit "\n" ++ parClose))))))).drop (sc.length + scrClose.length)
      = lit "\n" ++ (omniOpen ++ (om ++ (omniClose ++
          (lit "\n" ++ parClose)))) := by
    have ea : sc ++ (scrClose ++ (lit "\n" ++ (omniOpen ++ (om ++ (omniClose ++
        (lit "\n" ++ parClose)))))) = (sc ++ scrClose) ++ (lit "\n" ++
        (omniOpen ++ (om ++ (omniClose ++ (lit "\n" ++ parClose))))) :=
      (List.append_assoc _ _ _).symm
    have el : sc.length + scrClose.length = (sc ++ scrClose).length := by simp
    rw [ea, el, drop_concat_left]
  have hc1 : containsSub parClose (lit "\n" ++ (omniOpen ++ (om ++
      (omniClose ++ (lit "\n" ++ parClose))))) = true := by
    have he : lit "\n" ++ (omniOpen ++ (om ++ (omniClose ++
        (lit "\n" ++ parClose))))
        = (lit "\n" ++ (omniOpen ++ (om ++ omniClose))) ++
          (lit "\n" ++ parClose) := by
      simp [List.append_assoc]
    rw [he]
    exact containsSub_right parClose _ _ 1 (by decide)
  have ho1 : findSub? omniOpen (lit "\n" ++ (omniOpen ++ (om ++ (omniClose ++
      (lit "\n" ++ parClose))))) = some 1 := by
    simpa using findSub?_split_of_short omniOpen (lit "\n")
      (om ++ (omniClose ++ (lit "\n" ++ parClose))) (by decide)
  have e3 : (lit "\n" ++ (omniOpen ++ (om ++ (omniClose ++
      (lit "\n" ++ parClose))))).drop (1 + omniOpen.length)
      = om ++ (omniClose ++ (lit "\n" ++ parClose)) := rfl
  have ho2 : findSub? omniClose (om ++ (omniClose ++ (lit "\n" ++ parClose)))
      = some om.length :=
    findSub?_split_of_short omniClose om _ hom
  have e4 : (om ++ (omniClose ++ (lit "\n" ++ parClose))).drop
      (om.length + omniClose.length) = lit "\n" ++ parClose := by
    have ea : om ++ (omniClose ++ (lit "\n" ++ parClose))
        = (om ++ omniClose) ++ (lit "\n" ++ parClose) :=
      (List.append_assoc _ _ _).symm
    have el : om.length + omniClose.length = (om ++ omniClose).length := by
      simp
    rw [ea, el, drop_concat_left]
  have hc2 : containsSub parClose (lit "\n" ++ parClose) = true := by decide
  unfold arFinish
  simp only [hso, e1, h2, e2, hc1, if_true, take_concat_left, ho1, e3, ho2,
    e4, hc2]

theorem arFinish_scr_only (b : Bool) (msg sc : Str)
    (hsc : ∀ j < sc.length, ¬ occAt scrClose (sc ++ scrClose) j) :
    arFinish b msg (lit "\n" ++ (scrOpen ++ (sc ++ (scrClose ++ (lit "\n" ++
        (lit "\n" ++ parClose)))))) =
      some { isSuccess := b, message := msg, screenshotCap := some sc,
             omniCap := none } := by
  have hso : findSub? scrOpen (lit "\n" ++ (scrOpen ++ (sc ++ (scrClose ++
      (lit "\n" ++ (lit "\n" ++ parClose)))))) = some 1 := by
    simpa using findSub?_split_of_short scrOpen (lit "\n")
      (sc ++ (scrClose ++ (lit "\n" ++ (lit "\n" ++ parClose)))) (by decide)
  have e1 : (lit "\n" ++ (scrOpen ++ (sc ++ (scrClose ++ (lit "\n" ++
      (lit "\n" ++ parClose)))))).drop (1 + scrOpen.length)
      = sc ++ (scrClose ++ (lit "\n" ++ (lit "\n" ++ parClose))) := rfl
  have h2 : findSub? scrClose (sc ++ (scrClose ++ (lit "\n" ++
      (lit "\n" ++ parClose)))) = some sc.length :=
    findSub?_split_of_short scrClose sc _ hsc
  have e2 : (sc ++ (scrClose ++ (lit "\n" ++
      (lit "\n" ++ parClose)))).drop (sc.length + scrClose.length)
      = lit "\n" ++ (lit "\n" ++ parClose) := by
    have ea : sc ++ (scrClose ++ (lit "\n" ++ (lit "\n" ++ parClose)))
        = (sc ++ scrClose) ++ (lit "\n" ++ (lit "\n" ++ parClose)) :=
      (List.append_assoc _ _ _).symm
    have el : sc.length + scrClose.length = (sc ++ scrClose).length := by simp
    rw [ea, el, drop_concat_left]
  have hc1 : containsSub parClose (lit "\n" ++ (lit "\n" ++ parClose))
      = true := by decide
  have ho1 : findSub? omniOpen (lit "\n" ++ (lit "\n" ++ parClose))
      = none := by decide
  unfold arFinish
  simp only [hso, e1, h2, e2, hc1, if_true, take_concat_left, ho1]

theorem arFinish_omni_only (b : Bool) (msg om : Str)
    (hom : ∀ j < om.length, ¬ occAt omniClose (om ++ omniClose) j)
    (hns : containsSub scrOpen (lit "\n" ++ (lit "\n" ++ (omniOpen ++
      (om ++ (omniClose ++ (lit "\n" ++ parClose)))))) = false) :
    arFinish b msg (lit "\n" ++ (lit "\n" ++ (omniOpen ++ (om ++
        (omniClose ++ (lit "\n" ++ parClose)))))) =
      some { isSuccess := b, message := msg, screenshotCap := none,
             omniCap := some om } := by
  have hso : findSub? scrOpen (lit "\n" ++ (lit "\n" ++ (omniOpen ++ (om ++
      (omniClose ++ (lit "\n" ++ parClose)))))) = none :=
    findSub?_eq_none_of_not_contains _ _ hns
  have ho1 : findSub? omniOpen (lit "\n" ++ (lit "\n" ++ (omniOpen ++ (om ++
      (omniClose ++ (lit "\n" ++ parClose)))))) = some 2 := by
    have he : lit "\n" ++ (lit "\n" ++ (omniOpen ++ (om ++ (omniClose ++
        (lit "\n" ++ parClose)))))
        = lit "\n\n" ++ (omniOpen ++ (om ++ (omniClose ++
            (lit "\n" ++ parClose)))) := rfl
    rw [he]
    simpa using findSub?_split_of_short omniOpen (lit "\n\n")
      (om ++ (omniClose ++ (lit "\n" ++ parClose))) (by decide)
  have e3 : (lit "\n" ++ (lit "\n" ++ (omniOpen ++ (om ++ (omniClose ++
      (lit "\n" ++ parClose)))))).drop (2 + omniOpen.length)
      = om ++ (omniClose ++ (lit "\n" ++ parClose)) := rfl
  have ho2 : findSub? omniClose (om ++ (omniClose ++ (lit "\n" ++ parClose)))
      = some om.length :=
    findSub?_split_of_short omniClose om _ hom
  have e4 : (om ++ (omniClose ++ (lit "\n" ++ parClose))).drop
      (om.length + omniClose.length) = lit "\n" ++ parClose := by
    have ea : om ++ (omniClose ++ (lit "\n" ++ parClose))
        = (om ++ omniClose) ++ (lit "\n" ++ parClose) :=
      (List.append_assoc _ _ _).symm
    have el : om.length + omniClose.length = (om ++ omniClose).length := by
      simp
    rw [ea, el, drop_concat_left]
  have hc2 : containsSub parClose (lit "\n" ++ parClose) = true := by decide
  unfold arFinish
  simp only [hso, ho1, e3, ho2, e4, hc2, if_true, take_concat_left]

theorem arFinish_plain (b : Bool) (msg : Str) :
    arFinish b msg (lit "\n" ++ (lit "\n" ++ (lit "\n" ++ parClose))) =
      some { isSuccess := b, message := msg, screenshotCap := none,
             omniCap := none } := rfl


/-- C6 (amended): serializing an ActionResponse into
`perform_action_result` markup and parsing it back reproduces the status,
message, screenshot and omniParserResult, provided the response survives
the truthiness guards of the serializer and parser — the message is
non-empty and a present screenshot is non-empty — and the variable payloads
do not contain the markup's own delimiters: the message contains no
`</action_message>`, a present screenshot no `</screenshot>`, a present
omni payload's JSON text no `</omni_parser>` and (when no screenshot line
is emitted) no `<screenshot>`. -/
theorem performActionResult_roundTrip (r : FActionResponse)
    (hm : r.message ≠ [])
    (hmsg : ∀ j < r.message.length, ¬ occAt amClose (r.message ++ amClose) j)
    (hscr : ∀ sc, r.screenshot = some sc → sc ≠ [] ∧
       ∀ j < sc.length, ¬ occAt scrClose (sc ++ scrClose) j)
    (hom : ∀ jv, r.omniParserResult = some jv →
       ∀ j < (jsonStringify jv).length,
         ¬ occAt omniClose (jsonStringify jv ++ omniClose) j)
    (hns : r.screenshot = none → ∀ jv, r.omniParserResult = some jv →
       containsSub scrOpen (lit "\n" ++ (lit "\n" ++ (omniOpen ++
         (jsonStringify jv ++ (omniClose ++ (lit "\n" ++ parClose))))))
         = false) :
    performActionResultMatch (serializeActionResult r) =
      .ok (some { length := (serializeActionResult r).length,
                  part := MessagePart.actionResult r.status r.message
                    r.screenshot r.omniParserResult }) := by
  have hmOf : actionMessageOf r = r.message := by
    unfold actionMessageOf
    rw [if_pos hm]
  have eHt : serStart true = lit "<perform_action_result>\n<action_status>" ++
      (lit "success" ++ lit "</action_status>\n<action_message>") := rfl
  have eHf : serStart false = lit "<perform_action_result>\n<action_status>" ++
      (lit "error" ++ lit "</action_status>\n<action_message>") := rfl
  have eC : lit "</action_message>\n" = amClose ++ lit "\n" := rfl
  have eD : lit "\n</perform_action_result>" = lit "\n" ++ parClose := rfl
  rcases hsc : r.screenshot with _ | sc
  · rcases hOm : r.omniParserResult with _ | jv
    · rcases hst : r.status with _ | _
      · have hser : serializeActionResult r
            = serStart true ++ (r.message ++ (amClose ++
              (lit "\n" ++ (lit "\n" ++ (lit "\n" ++ parClose))))) := by
          simp [serializeActionResult, hst, hsc, hOm, hmOf, eHt, eHf, eC, eD,
            List.append_assoc]
        rw [hser]
        unfold performActionResultMatch
        rw [arMatch_decomp true r.message _ hmsg]
        rw [arFinish_plain true r.message]
        simp [hst, hsc, hOm, jsonParse_stringify, jsonStringify_ne_nil]
      · have hser : serializeActionResult r
            = serStart false ++ (r.message ++ (amClose ++
              (lit "\n" ++ (lit "\n" ++ (lit "\n" ++ parClose))))) := by
          simp [serializeActionResult, hst, hsc, hOm, hmOf, eHt, eHf, eC, eD,
            List.append_assoc]
        rw [hser]
        unfold performActionResultMatch
        rw [arMatch_decomp false r.message _ hmsg]
        rw [arFinish_plain false r.message]
        simp [hst, hsc, hOm, jsonParse_stringify, jsonStringify_ne_nil]
    · rcases hst : r.status with _ | _
      · have hom2 := hom jv hOm
        have hns2 := hns hsc jv hOm
        have hser : serializeActionResult r
            = serStart true ++ (r.message ++ (amClose ++
              (lit "\n" ++ (lit "\n" ++ (omniOpen ++ (jsonStringify jv ++
                (omniClose ++ (lit "\n" ++ parClose)))))))) := by
          simp [serializeActionResult, hst, hsc, hOm, hmOf, eHt, eHf, eC, eD,
            List.append_assoc]
        rw [hser]
        unfold performActionResultMatch
        rw [arMatch_decomp true r.message _ hmsg]
        rw [arFinish_omni_only true r.message (jsonStringify jv) hom2 hns2]
        simp [hst, hsc, hOm, jsonParse_stringify, jsonStringify_ne_nil]
      · have hom2 := hom jv hOm
        have hns2 := hns hsc jv hOm
        have hser : serializeActionResult r
            = serStart false ++ (r.message ++ (amClose ++
              (lit "\n" ++ (lit "\n" ++ (omniOpen ++ (jsonStringify jv ++
                (omniClose ++ (lit "\n" ++ parClose)))))))) := by
          simp [serializeActionResult, hst, hsc, hOm, hmOf, eHt, eHf, eC, eD,
            List.append_assoc]
        rw [hser]
        unfold performActionResultMatch
        rw [arMatch_decomp false r.message _ hmsg]
        rw [arFinish_omni_only false r.message (jsonStringify jv) hom2 hns2]
        simp [hst, hsc, hOm, jsonParse_stringify, jsonStringify_ne_nil]
  · rcases hOm : r.omniParserResult with _ | jv
    · rcases hst : r.status with _ | _
      · obtain ⟨hsne, hsc2⟩ := hscr sc hsc
        have hser : serializeActionResult r
            = serStart true ++ (r.message ++ (amClose ++
              (lit "\n" ++ (scrOpen ++ (sc ++ (scrClose ++ (lit "\n" ++
                (lit "\n" ++ parClose)))))))) := by
          simp [serializeActionResult, hst, hsc, hOm, hmOf, eHt, eHf, eC, eD,
            List.append_assoc, hsne]
        rw [hser]
        unfold performActionResultMatch
        rw [arMatch_decomp true r.message _ hmsg]
        rw [arFinish_scr_only true r.message sc hsc2]
        simp [hst, hsc, hOm, jsonParse_stringify, jsonStringify_ne_nil, hsne]
      · obtain ⟨hsne, hsc2⟩ := hscr sc hsc
        have hser : serializeActionResult r
            = serStart false ++ (r.message ++ (amClose ++
              (lit "\n" ++ (scrOpen ++ (sc ++ (scrClose ++ (lit "\n" ++
                (lit "\n" ++ parClose)))))))) := by
          simp [serializeActionResult, hst, hsc, hOm, hmOf, eHt, eHf, eC, eD,
            List.append_assoc, hsne]
        rw [hser]
        unfold performActionResultMatch
        rw [arMatch_decomp false r.message _ hmsg]
        rw [arFinish_scr_only false r.message sc hsc2]
        simp [hst, hsc, hOm, jsonParse_stringify, jsonStringify_ne_nil, hsne]
    · rcases hst : r.status with _ | _
      · obtain ⟨hsne, hsc2⟩ := hscr sc hsc
        have hom2 := hom jv hOm
        have hser : serializeActionResult r
            = serStart true ++ (r.message ++ (amClose ++
              (lit "\n" ++ (scrOpen ++ (sc ++ (scrClose ++ (lit "\n" ++
                (omniOpen ++ (jsonStringify jv ++ (omniClose ++
                (lit "\n" ++ parClose))))))))))) := by
          simp [serializeActionResult, hst, hsc, hOm, hmOf, eHt, eHf, eC, eD,
            List.append_assoc, hsne]
        rw [hser]
        unfold performActionResultMatch
        rw [arMatch_decomp true r.message _ hmsg]
        rw [arFinish_scr_omni true r.message sc (jsonStringify jv) hsc2 hom2]
        simp [hst, hsc, hOm, jsonParse_stringify, jsonStringify_ne_nil, hsne]
      · obtain ⟨hsne, hsc2⟩ := hscr sc hsc
        have hom2 := hom jv hOm
        have hser : serializeActionResult r
            = serStart false ++ (r.message ++ (amClose ++
              (lit "\n" ++ (scrOpen ++ (sc ++ (scrClose ++ (lit "\n" ++
                (omniOpen ++ (jsonStringify jv ++ (omniClose ++
                (lit "\n" ++ parClose))))))))))) := by
          simp [serializeActionResult, hst, hsc, hOm, hmOf, eHt, eHf, eC, eD,
            List.append_assoc, hsne]
        rw [hser]
        unfold performActionResultMatch
        rw [arMatch_decomp false r.message _ hmsg]
        rw [arFinish_scr_omni false r.message sc (jsonStringify jv) hsc2 hom2]
        simp [hst, hsc, hOm, jsonParse_stringify, jsonStringify_ne_nil, hsne]

def c6r : FActionResponse :=
  { status := RStatus.success
    message := lit "ok"
    error := []
    screenshot := some []
    omniParserResult := none }

/-- C6 counterexample: an ActionResponse with an empty-string screenshot
does not survive the round trip — the serializer's truthiness guard drops
the `<screenshot>` line, so parsing returns no screenshot at all, while the
original had `some ""`. -/
theorem roundTrip_empty_screenshot_lost :
    c6r.screenshot = some [] ∧
    performActionResultMatch (serializeActionResult c6r) =
      .ok (some { length := (serializeActionResult c6r).length
                  part := MessagePart.actionResult RStatus.success (lit "ok")
                    none none }) ∧
    (none : Option Str) ≠ some [] := by
  refine ⟨rfl, ?_, by decide⟩
  rfl

def c6w : FActionResponse :=
  { status := RStatus.error
    message := lit "oops"
    error := []
    screenshot := some (lit "imgdata")
    omniParserResult := some (Json.arr (JsonArr.cons (Json.bool true) JsonArr.nil)) }

theorem performActionResult_roundTrip_witness :
    c6w.message ≠ [] ∧
    (∀ j < c6w.message.length, ¬ occAt amClose (c6w.message ++ amClose) j) ∧
    performActionResultMatch (serializeActionResult c6w) =
      .ok (some { length := (serializeActionResult c6w).length
                  part := MessagePart.actionResult c6w.status c6w.message
                    c6w.screenshot c6w.omniParserResult }) :=
  ⟨by decide, by decide,
   performActionResult_roundTrip c6w (by decide) (by decide)
     (fun sc h => by
       have h2 : lit "imgdata" = sc := Option.some_inj.mp h
       subst h2
       exact ⟨by decide, by decide⟩)
     (fun jv h => by
       have h2 : Json.arr (JsonArr.cons (Json.bool true) JsonArr.nil) = jv :=
         Option.some_inj.mp h
       subst h2
       decide)
     (fun h => absurd h (by decide))⟩



end Factif
